import Mathlib

/-!
# Verification of the Yjs echo websocket relay (jupyterlab/handlers/yjs_echo_ws.py)

Shallow embedding of the real-time collaboration relay: the varint framing
codec (`write_var_uint` / `get_message`), the sync-message codec
(`read_sync_message`), and the connection handler state machine
(`YjsEchoWebSocket.open` / `on_message` / `on_close`) together with the
debounced persistence tasks (`maybe_save_document` / `save_document`).

Bytes are modelled as `List Nat` (each element a value 0-255 in practice);
strings that the code only ever splits on a colon (room identifiers, the
`"kind:path"` connection target) are modelled as their byte sequences, which
is faithful because a colon never occurs inside a UTF-8 multi-byte sequence.
Python exceptions are modelled by the `PyErr` type; a transition that raises
appends the exception to the `errors` log of the state, keeping exactly the
mutations that had already happened before the raise (Python semantics).

The two iterative loops of the module (`write_var_uint` and the `get_message`
generator) are written with an explicit structural fuel so that every
definition reduces in the kernel; the fuel passed at the entry point is a
proven upper bound on the number of iterations (each iteration strictly
consumes input), and fuel-irrelevance lemmas (`write_var_uint_go_congr`,
`get_message_go_congr`) show the result does not depend on the bound.
-/

namespace YjsEchoWs

/-- A byte string (`bytes` in Python): list of byte values. -/
abbrev Bytes := List Nat

/-- The Python exceptions that the modelled module can raise. -/
inductive PyErr where
  | indexError : PyErr
  | keyError : PyErr
  | attributeError : PyErr
  | valueError : PyErr
  | runtimeError : String → PyErr
deriving DecidableEq

/-- The explicit protocol error the code raises for a negative frame
remainder: `RuntimeError("Y protocol error")` (yjs_echo_ws.py line 246). -/
def protocolError : PyErr := PyErr.runtimeError "Y protocol error"

/-- Loop body of `write_var_uint` (lines 217-223), fuel-indexed.  One
iteration per emitted continuation byte; `128 | (127 & num)` equals
`128 + num % 128` and `num >> 7` equals `num / 128`.  The fuel-0 fallback
is unreachable for the entry-point fuel (see `write_var_uint_go_congr` and
`write_var_uint_large`). -/
def write_var_uint_go : Nat → Nat → Bytes
  | 0, num => [num]
  | f + 1, num =>
    if num > 127 then (128 + num % 128) :: write_var_uint_go f (num / 128)
    else [num]

/-- `write_var_uint` (yjs_echo_ws.py lines 217-223): base-128 varint
encoding.  `num` itself bounds the number of continuation bytes. -/
def write_var_uint (num : Nat) : Bytes := write_var_uint_go num num

/-- The varint-decoding inner loop of `get_message` (lines 230-239): reads
bytes accumulating `(byte & 127) << i` with `i` growing by 7, stops at the
first byte with the high bit clear, and raises `IndexError` when the input is
exhausted first (`message[i0]` out of range).  `byte & 127` equals
`byte % 128`.  Returns the decoded value and the unread remainder. -/
def decodeVar : Bytes → Nat → Nat → Except PyErr (Nat × Bytes)
  | [], _, _ => Except.error PyErr.indexError
  | b :: rest, shift, acc =>
    let acc2 := acc + b % 128 * 2 ^ shift
    if b < 128 then Except.ok (acc2, rest)
    else decodeVar rest (shift + 7) acc2

/-- The spec's `decode_uint(bytes, offset=0) -> (value, consumed_length)`:
the inner length-decode loop of `get_message` applied at offset 0, returning
the decoded value and the number of bytes consumed. -/
def decode_uint (m : Bytes) : Except PyErr (Nat × Nat) :=
  (decodeVar m 0 0).map (fun vr => (vr.1, m.length - vr.2.length))

/-- Body of the `get_message` generator (lines 226-248), fuel-indexed, with
its side-effect order made explicit: returns the list of frames yielded
before the generator finished or raised, and the exception if one was raised.
A frame length overshooting the input yields the truncated slice first
(`message[i0:i1]` truncates) and then raises `RuntimeError("Y protocol
error")` on the `length < 0` check; exhausting the input inside a varint
raises `IndexError`.  Each iteration consumes at least one byte, so the
remaining input strictly shrinks; at fuel 0 the input can only be empty,
where `message[i0]` raises `IndexError` — which is what the fallback
returns. -/
def get_message_go : Nat → Bytes → List Bytes × Option PyErr
  | 0, _ => ([], some PyErr.indexError)
  | f + 1, rem =>
    match decodeVar rem 0 0 with
    | Except.error e => ([], some e)
    | Except.ok (msgLen, rest) =>
      let msg := rest.take msgLen
      if rest.length < msgLen then ([msg], some protocolError)
      else if rest.length = msgLen then ([msg], none)
      else
        let r := get_message_go f (rest.drop msgLen)
        (msg :: r.1, r.2)

/-- The `get_message` generator run on a whole input: the frames it yields
and the exception it raises, if any. -/
def get_message_loop (rem : Bytes) : List Bytes × Option PyErr :=
  get_message_go (rem.length + 1) rem

/-- `get_message` as a whole-input splitter: the sequence of frames when the
generator completes, or the exception it raises. -/
def get_message (m : Bytes) : Except PyErr (List Bytes) :=
  match get_message_loop m with
  | (msgs, none) => Except.ok msgs
  | (_, some e) => Except.error e

/-- The spec's `length_prefix(s)`: the varint length followed by the bytes. -/
def length_prefix (s : Bytes) : Bytes := write_var_uint s.length ++ s

/-- Concatenation of the length-prefixed elements of a sequence of frames. -/
def concatFrames (S : List Bytes) : Bytes := (S.map length_prefix).flatten

/-- `s.split(sep, 1)` on byte strings: the parts before and after the first
occurrence of `sep`, or `none` when `sep` does not occur (in which case
Python's 2-element unpack raises `ValueError` and `split(...)[1]` raises
`IndexError`). -/
def splitFirst (sep : Nat) : Bytes → Option (Bytes × Bytes)
  | [] => none
  | b :: rest =>
    if b = sep then some ([], rest)
    else (splitFirst sep rest).map (fun p => (b :: p.1, p.2))

/-- Modelled from the spec: the Document Adapter (§4.3) wraps the external
CRDT engine (`y_py` / `jupyter_ydoc`, dependencies that are not part of this
repository).  `applyUpdate` records an applied update and marks the document
dirty (an edit makes the document dirty, §4.5/§8); it is modelled as total —
the engine's possible apply failure on a malformed update is outside the
embedded code.  `trySource` is `try_materialize` / reading `.source`: `none`
models the not-yet-renderable state in which the read raises (nothing has
been applied yet); once content exists the rendered source is kept abstract
as the applied-update log.  `encodeStateAsUpdate` is the engine's black-box
diff; no claim depends on its value, only on the shape of the reply frame
built from it. -/
structure YDoc where
  applied : List Bytes
  dirty : Bool
deriving DecidableEq

/-- A freshly constructed document: nothing applied, not dirty. -/
def YDoc.init : YDoc := ⟨[], false⟩

/-- `Y.apply_update(doc, update)` plus the dirty-flag observer. -/
def YDoc.applyUpdate (d : YDoc) (u : Bytes) : YDoc := ⟨d.applied ++ [u], true⟩

/-- `room.source` behind the `try/except` of `maybe_save_document`. -/
def YDoc.trySource (d : YDoc) : Option Bytes :=
  if d.applied.isEmpty then none else some d.applied.flatten

/-- `Y.encode_state_as_update(doc, state_vector)`: black-box diff. -/
def YDoc.encodeStateAsUpdate (d : YDoc) (sv : Bytes) : Bytes := d.applied.flatten

/-- What `save_document` writes: the raw source, or the notebook variant
`json.dumps(source, indent=2)` kept abstract as a tagged wrapper. -/
inductive Saved where
  | raw : Bytes → Saved
  | jsonIndent2 : Bytes → Saved
deriving DecidableEq

/-- A scheduled `save_document` task: `asyncio.sleep(1)` makes it fire one
time unit after creation, then it writes `source`.  Time is modelled in
whole units of the 1-second debounce delay. -/
structure SaveTask where
  fireTime : Nat
  source : Saved
deriving DecidableEq

/-- Per-connection handler state: `room_id`, whether the transport is still
open, and the `saving_document` task slot (a present task is pending, i.e.
`not done()`; fired tasks are cleared). -/
structure Conn where
  roomId : Bytes
  isOpen : Bool
  savingDocument : Option SaveTask
deriving DecidableEq

/-- `YjsRoom` (lines 49-66): document kind tag, the connected client ids in
insertion order (Python dict preserves insertion order), the raw initial
content, and the document. -/
structure YjsRoom where
  type : Bytes
  clients : List Nat
  content : Bytes
  ydoc : YDoc
deriving DecidableEq

/-- `YjsRoom.__init__`. -/
def YjsRoom.new (t : Bytes) : YjsRoom := ⟨t, [], [], YDoc.init⟩

/-- The process state: the module-level `ROOMS` dict (an entry can hold the
Python value `None`, hence the nested `Option`: outer `none` = no entry,
`some none` = an entry whose stored value is `None`), the handler objects by
connection id (`conns` the mapping, `connIds` the creation order, together a
finite insertion-ordered map), and three observation logs — frames delivered
to clients, storage writes `(fire time, path, content)`, and raised
exceptions. -/
structure ServerState where
  rooms : Bytes → Option (Option YjsRoom)
  conns : Nat → Option Conn
  connIds : List Nat
  sent : List (Nat × Bytes)
  saves : List (Nat × Bytes × Saved)
  errors : List PyErr

/-- The state at process start: `ROOMS = {}`. -/
def initState : ServerState := ⟨fun _ => none, fun _ => none, [], [], [], []⟩

/-- `ROOMS.get(key)`: a missing entry and a stored `None` both read as
`None`. -/
def ServerState.effRoom (s : ServerState) (k : Bytes) : Option YjsRoom :=
  (s.rooms k).join

/-- `ROOMS[key] = value`. -/
def ServerState.setRoomEntry (s : ServerState) (k : Bytes) (v : Option YjsRoom) :
    ServerState :=
  { s with rooms := fun q => if q = k then some v else s.rooms q }

/-- `del ROOMS[key]` / `ROOMS.pop(key)` once the entry is known to exist. -/
def ServerState.delRoomEntry (s : ServerState) (k : Bytes) : ServerState :=
  { s with rooms := fun q => if q = k then none else s.rooms q }

/-- Store a handler object under its connection id (keeping creation order
for iteration). -/
def ServerState.setConn (s : ServerState) (c : Nat) (v : Conn) : ServerState :=
  { s with conns := fun q => if q = c then some v else s.conns q,
           connIds := if c ∈ s.connIds then s.connIds else s.connIds ++ [c] }

/-- Raising a Python exception out of a handler: the tornado loop logs it;
the mutations made before the raise persist. -/
def ServerState.raise (s : ServerState) (e : PyErr) : ServerState :=
  { s with errors := s.errors ++ [e] }

/-- Delivering a frame to a client (`write_message` via
`hook_send_message`): recorded when the target transport is open; a closed
target raises `WebSocketClosedError`, which every call site that can see one
tolerates (the `try/except` in `save_document`, the isolation of
`loop.add_callback` callbacks). -/
def ServerState.deliver (s : ServerState) (c : Nat) (m : Bytes) : ServerState :=
  match s.conns c with
  | some conn => if conn.isOpen then { s with sent := s.sent ++ [(c, m)] } else s
  | none => s

/-- `YjsEchoWebSocket.open(type_path)` (lines 92-101): parse `kind:path`,
look up or create the room, register the connection, send the `[0,0,1,0]`
SyncStep1 handshake. -/
def ws_open (s : ServerState) (connId : Nat) (typePath : Bytes) : ServerState :=
  match splitFirst 58 typePath with
  | none => s.raise PyErr.valueError
  | some tp =>
    let room := (s.effRoom tp.2).getD (YjsRoom.new tp.1)
    let room2 := { room with clients :=
      if connId ∈ room.clients then room.clients else room.clients ++ [connId] }
    let s2 := s.setConn connId ⟨tp.2, true, none⟩
    let s3 := s2.setRoomEntry tp.2 (some room2)
    s3.deliver connId [0, 0, 1, 0]

/-- `YjsEchoWebSocket.on_close` (lines 132-140).  The transport is closed
before the handler body runs, whether or not that body raises. -/
def ws_close (s : ServerState) (connId : Nat) : ServerState :=
  match s.conns connId with
  | none => s
  | some conn =>
    if conn.isOpen then
      let s1 := s.setConn connId { conn with isOpen := false }
      match s1.effRoom conn.roomId with
      | none => s1.raise PyErr.attributeError
      | some room =>
        if connId ∈ room.clients then
          let clients2 := room.clients.erase connId
          if clients2.isEmpty then s1.delRoomEntry conn.roomId
          else s1.setRoomEntry conn.roomId (some { room with clients := clients2 })
        else s1.raise PyErr.keyError
    else s

/-- The SyncStep2 reply frame built by `read_sync_step1` (lines 188-191). -/
def syncStep2Frame (d : YDoc) (sv : Bytes) : Bytes :=
  1 :: (write_var_uint (d.encodeStateAsUpdate sv).length ++ d.encodeStateAsUpdate sv)

/-- `read_sync_message` (lines 201-214) run against the room's document:
returns the updated state and whether an exception was raised.  The frames
yielded by `get_message` before an exception have already been processed
(replies sent / updates applied) when it propagates. -/
def read_sync_message (s : ServerState) (connId : Nat) (roomKey : Bytes)
    (room : YjsRoom) (message : Bytes) : ServerState × Bool :=
  match message with
  | [] => (s.raise PyErr.indexError, true)
  | t :: rest =>
    if t = 0 then
      let fr := get_message_loop rest
      let s2 := fr.1.foldl (fun acc f => acc.deliver connId (syncStep2Frame room.ydoc f)) s
      match fr.2 with
      | some e => (s2.raise e, true)
      | none => (s2, false)
    else if t = 1 ∨ t = 2 then
      let fr := get_message_loop rest
      let ydoc2 := fr.1.foldl YDoc.applyUpdate room.ydoc
      let s2 := s.setRoomEntry roomKey (some { room with ydoc := ydoc2 })
      match fr.2 with
      | some e => (s2.raise e, true)
      | none => (s2, false)
    else (s.raise (PyErr.runtimeError "Unknown message type"), true)

/-- The byte string "notebook". -/
def notebookBytes : Bytes := [110, 111, 116, 101, 98, 111, 111, 107]

/-- `maybe_save_document` (lines 149-165): return unless the room's document
is dirty; cancel the connection's own pending save task; try to materialize
the source; when it materializes, schedule `save_document` to fire one time
unit from now (the `asyncio.sleep(1)` debounce).  Returns the state and
whether an exception was raised. -/
def maybe_save_document (s : ServerState) (connId : Nat) (now : Nat) :
    ServerState × Bool :=
  match s.conns connId with
  | none => (s, false)
  | some conn =>
    match s.effRoom conn.roomId with
    | none => (s.raise PyErr.attributeError, true)
    | some room =>
      if !room.ydoc.dirty then (s, false)
      else
        let conn2 := { conn with savingDocument := none }
        match room.ydoc.trySource with
        | none => (s.setConn connId conn2, false)
        | some src =>
          let final := if room.type = notebookBytes then Saved.jsonIndent2 src
            else Saved.raw src
          (s.setConn connId { conn2 with savingDocument := some ⟨now + 1, final⟩ },
            false)

/-- The body of `save_document` after the sleep (lines 170-180): read the
path from `self.room_id` AT FIRE TIME, write the materialized source there,
and best-effort notify this connection with a `content-saved` frame
(`[124, 1]`), tolerating a closed socket.  The dirty flag is NOT cleared
(line 178 is commented out in the source).  The fired task is cleared from
the slot. -/
def fireTask (s : ServerState) (connId : Nat) : ServerState :=
  match s.conns connId with
  | none => s
  | some conn =>
    match conn.savingDocument with
    | none => s
    | some task =>
      let s1 := s.setConn connId { conn with savingDocument := none }
      let s2 := { s1 with saves := s1.saves ++ [(task.fireTime, conn.roomId, task.source)] }
      s2.deliver connId [124, 1]

/-- The broadcast loop of `on_message` (lines 128-130): deliver the raw
frame to every client of the sender's room except the sender (`self.room`
re-read from the registry). -/
def broadcastFrame (s : ServerState) (connId : Nat) (roomKey : Bytes)
    (message : Bytes) : ServerState :=
  match s.effRoom roomKey with
  | none => s.raise PyErr.attributeError
  | some room =>
    room.clients.foldl (fun acc c => if c ≠ connId then acc.deliver c message else acc) s

/-- `YjsEchoWebSocket.on_message` (lines 103-130).  Control markers 127/126
are handled against `self.room`; 125 (rename) moves the registry entry and
then iterates `self.room.clients` — re-reading the property AFTER
`del ROOMS[self.room_id]`; any other frame is processed under
`elif self.room:`: leading byte 0 runs the sync codec and the persistence
scheduler, then (for every non-control frame) the raw frame is broadcast to
the other clients. -/
def ws_on_message (s : ServerState) (connId : Nat) (now : Nat) (message : Bytes) :
    ServerState :=
  match s.conns connId with
  | none => s
  | some conn =>
    if !conn.isOpen then s
    else
      match message with
      | [] => s.raise PyErr.indexError
      | b :: payload =>
        if b = 127 then
          match s.effRoom conn.roomId with
          | none => s.raise PyErr.attributeError
          | some room => s.deliver connId (127 :: room.content)
        else if b = 126 then
          match s.effRoom conn.roomId with
          | none => s.raise PyErr.attributeError
          | some room => s.setRoomEntry conn.roomId (some { room with content := payload })
        else if b = 125 then
          match splitFirst 58 payload with
          | none => s.raise PyErr.indexError
          | some pr =>
            let s1 := s.setRoomEntry pr.2 (s.effRoom conn.roomId)
            match s1.rooms conn.roomId with
            | none => s1.raise PyErr.keyError
            | some _ =>
              let s2 := s1.delRoomEntry conn.roomId
              match s2.effRoom conn.roomId with
              | none => s2.raise PyErr.attributeError
              | some room =>
                let s3 := room.clients.foldl (fun acc c =>
                  match acc.conns c with
                  | none => acc
                  | some cc => acc.setConn c { cc with roomId := pr.2 }) s2
                s3.deliver connId [125, 1]
        else
          match s.effRoom conn.roomId with
          | none => s
          | some room =>
            if b = 0 then
              let rs := read_sync_message s connId conn.roomId room payload
              if rs.2 then rs.1
              else
                let ms := maybe_save_document rs.1 connId now
                if ms.2 then ms.1
                else broadcastFrame ms.1 connId conn.roomId message
            else broadcastFrame s connId conn.roomId message

/-- Whether a pending task is due at or before the bound (no bound = flush
everything). -/
def dueFilter (bound : Option Nat) (t : Nat) : Bool :=
  match bound with
  | none => true
  | some q => decide (t ≤ q)

/-- The pending save tasks due by the bound, as `(fire time, connection)`.
Firing a task never creates, cancels or retimes another task, so the due set
is fixed when the loop turns to the timers. -/
def dueConns (s : ServerState) (bound : Option Nat) : List (Nat × Nat) :=
  s.connIds.filterMap (fun c =>
    match s.conns c with
    | some conn =>
      match conn.savingDocument with
      | some task =>
        if dueFilter bound task.fireTime then some (task.fireTime, c) else none
      | none => none
    | none => none)

/-- Stable insertion by fire time (equal deadlines keep creation order, as
the event loop runs them). -/
def insertByTime (x : Nat × Nat) : List (Nat × Nat) → List (Nat × Nat)
  | [] => [x]
  | y :: ys => if x.1 < y.1 then x :: y :: ys else y :: insertByTime x ys

def sortByTime (l : List (Nat × Nat)) : List (Nat × Nat) :=
  l.foldl (fun acc x => insertByTime x acc) []

/-- Run every save task due by the bound, in chronological order. -/
def fireDue (s : ServerState) (bound : Option Nat) : ServerState :=
  (sortByTime (dueConns s bound)).foldl (fun acc tc => fireTask acc tc.2) s

/-- External stimuli of the single-threaded event loop, timestamped. -/
inductive Event where
  | evOpen : Nat → Bytes → Event
  | evMsg : Nat → Bytes → Event
  | evClose : Nat → Event

/-- One loop turn: timers due by the event's arrival time run first, then
the event's handler runs. -/
def stepEvent (s : ServerState) : Nat × Event → ServerState
  | (t, Event.evOpen c tp) => ws_open (fireDue s (some t)) c tp
  | (t, Event.evMsg c m) => ws_on_message (fireDue s (some t)) c t m
  | (t, Event.evClose c) => ws_close (fireDue s (some t)) c

/-- Run a (time-ordered) list of events. -/
def runEvents (s : ServerState) (evs : List (Nat × Event)) : ServerState :=
  evs.foldl stepEvent s

/-- Run the events, then let every remaining timer fire. -/
def runAll (s : ServerState) (evs : List (Nat × Event)) : ServerState :=
  fireDue (runEvents s evs) none

/-- The connection is currently open. -/
def connOpen (s : ServerState) (c : Nat) : Prop :=
  ∃ conn, s.conns c = some conn ∧ conn.isOpen = true

/-- The claim C8 invariant: every room present in the registry has at least
one connected client. -/
def registryClientInv (s : ServerState) : Prop :=
  ∀ k r, s.rooms k = some (some r) → ∃ c, c ∈ r.clients ∧ connOpen s c

/-- The inductive strengthening: every registry entry holds an actual room
whose client list is nonempty, duplicate-free, and consists of open
connections whose `room_id` is the entry's key; conversely every open
connection is listed in the room registered under its `room_id`. -/
def Inv (s : ServerState) : Prop :=
  (∀ k v, s.rooms k = some v → ∃ r, v = some r ∧ r.clients ≠ [] ∧ r.clients.Nodup ∧
    ∀ c, c ∈ r.clients →
      ∃ conn, s.conns c = some conn ∧ conn.isOpen = true ∧ conn.roomId = k)
  ∧ (∀ c conn, s.conns c = some conn → conn.isOpen = true →
    ∃ r, s.rooms conn.roomId = some (some r) ∧ c ∈ r.clients)

/-- The events covered by the amended C8 claim: opens carry a fresh
connection id (uuid4), and no rename-session frame is processed. -/
def okEvent (s : ServerState) : Nat × Event → Prop
  | (_, Event.evOpen c _) => s.conns c = none
  | (_, Event.evMsg _ m) => m.head? ≠ some 125
  | (_, Event.evClose _) => True

/-- The registry-relevant projection of the handler table: room key and
open flag of every connection (the save-task slot and the logs are invisible
to the registry invariant). -/
def connSkel (s : ServerState) : Nat → Option (Bytes × Bool) :=
  fun c => (s.conns c).map (fun cc => (cc.roomId, cc.isOpen))

/-! ## Varint codec -/

theorem write_var_uint_go_small (f n : Nat) (h : n ≤ 127) :
    write_var_uint_go f n = [n] := by
  cases f with
  | zero => rfl
  | succ g =>
    simp only [write_var_uint_go]
    rw [if_neg (by omega)]

theorem write_var_uint_go_congr :
    ∀ (n f₁ f₂ : Nat), n ≤ f₁ → n ≤ f₂ →
      write_var_uint_go f₁ n = write_var_uint_go f₂ n := by
  intro n
  induction n using Nat.strong_induction_on with
  | _ n ih =>
    intro f₁ f₂ h₁ h₂
    by_cases hn : n ≤ 127
    · rw [write_var_uint_go_small f₁ n hn, write_var_uint_go_small f₂ n hn]
    · obtain ⟨g₁, rfl⟩ : ∃ g, f₁ = g + 1 := ⟨f₁ - 1, by omega⟩
      obtain ⟨g₂, rfl⟩ : ∃ g, f₂ = g + 1 := ⟨f₂ - 1, by omega⟩
      simp only [write_var_uint_go]
      rw [if_pos (by omega), if_pos (by omega)]
      have hdiv : n / 128 < n := Nat.div_lt_self (by omega) (by omega)
      rw [ih (n / 128) hdiv g₁ g₂ (by omega) (by omega)]

theorem write_var_uint_small {n : Nat} (h : n ≤ 127) : write_var_uint n = [n] :=
  write_var_uint_go_small n n h

theorem write_var_uint_large {n : Nat} (h : 127 < n) :
    write_var_uint n = (128 + n % 128) :: write_var_uint (n / 128) := by
  obtain ⟨m, rfl⟩ : ∃ m, n = m + 1 := ⟨n - 1, by omega⟩
  show write_var_uint_go (m + 1) (m + 1) = _
  simp only [write_var_uint_go]
  rw [if_pos (by omega)]
  have hdiv : (m + 1) / 128 < m + 1 := Nat.div_lt_self (by omega) (by omega)
  rw [write_var_uint_go_congr ((m + 1) / 128) m ((m + 1) / 128) (by omega) le_rfl]
  rfl

theorem write_var_uint_ne_nil (n : Nat) : write_var_uint n ≠ [] := by
  by_cases h : 127 < n
  · rw [write_var_uint_large h]; simp
  · rw [write_var_uint_small (by omega)]; simp

/-- Decoding the varint encoding of `n` from the front of any byte stream
yields `n` (shifted into the accumulator) and the untouched tail. -/
theorem decodeVar_write_var_uint :
    ∀ (n shift acc : Nat) (tail : Bytes),
      decodeVar (write_var_uint n ++ tail) shift acc =
        Except.ok (acc + n * 2 ^ shift, tail) := by
  intro n
  induction n using Nat.strong_induction_on with
  | _ n ih =>
    intro shift acc tail
    by_cases h : 127 < n
    · rw [write_var_uint_large h, List.cons_append]
      rw [show ∀ (l : Bytes) (sh a : Nat), decodeVar ((128 + n % 128) :: l) sh a =
          decodeVar l (sh + 7) (a + (128 + n % 128) % 128 * 2 ^ sh) from by
        intro l sh a
        simp only [decodeVar]
        rw [if_neg (by omega)]]
      rw [ih (n / 128) (Nat.div_lt_self (by omega) (by omega)) (shift + 7)
        (acc + (128 + n % 128) % 128 * 2 ^ shift) tail]
      have hmod : (128 + n % 128) % 128 = n % 128 := by omega
      have hpow : (2 : Nat) ^ (shift + 7) = 2 ^ shift * 128 := by
        rw [pow_add]; norm_num
      have hsplit : 128 * (n / 128) + n % 128 = n := Nat.div_add_mod n 128
      have harith : acc + (128 + n % 128) % 128 * 2 ^ shift + n / 128 * 2 ^ (shift + 7) =
          acc + n * 2 ^ shift := by
        rw [hmod, hpow]
        calc acc + n % 128 * 2 ^ shift + n / 128 * (2 ^ shift * 128)
            = acc + (128 * (n / 128) + n % 128) * 2 ^ shift := by ring
          _ = acc + n * 2 ^ shift := by rw [hsplit]
      rw [harith]
    · rw [write_var_uint_small (by omega), List.cons_append]
      simp only [decodeVar]
      rw [if_pos (by omega)]
      rw [Nat.mod_eq_of_lt (by omega : n < 128), List.nil_append]

/-- A successful varint decode consumes at least one byte. -/
theorem decodeVar_consumes :
    ∀ (l : Bytes) (sh a v : Nat) (r : Bytes),
      decodeVar l sh a = Except.ok (v, r) → r.length < l.length := by
  intro l
  induction l with
  | nil => intro sh a v r hk; simp [decodeVar] at hk
  | cons b bs ih =>
    intro sh a v r hk
    simp only [decodeVar] at hk
    split at hk
    · injection hk with h1
      injection h1 with h2 h3
      subst h3
      simp
    · have := ih _ _ _ _ hk
      simp only [List.length_cons]
      omega

/-- Fuel irrelevance for the `get_message` loop: any fuel strictly above the
remaining input length gives the same result. -/
theorem get_message_go_congr :
    ∀ (f₁ : Nat) (rem : Bytes) (f₂ : Nat), rem.length < f₁ → rem.length < f₂ →
      get_message_go f₁ rem = get_message_go f₂ rem := by
  intro f₁
  induction f₁ with
  | zero => intro rem f₂ h₁; omega
  | succ f ih =>
    intro rem f₂ h₁ h₂
    obtain ⟨g, rfl⟩ : ∃ g, f₂ = g + 1 := ⟨f₂ - 1, by omega⟩
    cases hdv : decodeVar rem 0 0 with
    | error e => simp only [get_message_go, hdv]
    | ok p =>
      obtain ⟨msgLen, rest⟩ := p
      have hrest := decodeVar_consumes rem 0 0 msgLen rest hdv
      simp only [get_message_go, hdv]
      by_cases hlt : rest.length < msgLen
      · rw [if_pos hlt, if_pos hlt]
      · rw [if_neg hlt, if_neg hlt]
        by_cases heq : rest.length = msgLen
        · rw [if_pos heq, if_pos heq]
        · rw [if_neg heq, if_neg heq]
          have hdlen : (rest.drop msgLen).length ≤ rest.length := by
            simp [List.length_drop]
          rw [ih (rest.drop msgLen) g (by omega) (by omega)]

theorem length_prefix_ne_nil (s : Bytes) : length_prefix s ≠ [] := by
  unfold length_prefix
  intro hc
  exact write_var_uint_ne_nil s.length (List.append_eq_nil.mp hc).1

theorem concatFrames_cons (s : Bytes) (rest : List Bytes) :
    concatFrames (s :: rest) = write_var_uint s.length ++ (s ++ concatFrames rest) := by
  simp [concatFrames, length_prefix, List.append_assoc]

theorem concatFrames_ne_nil (s : Bytes) (rest : List Bytes) :
    concatFrames (s :: rest) ≠ [] := by
  rw [concatFrames_cons]
  intro hc
  exact write_var_uint_ne_nil s.length (List.append_eq_nil.mp hc).1

/-- Splitting the concatenation of length-prefixed frames recovers the
frames, for any nonempty frame sequence and any sufficient fuel. -/
theorem get_message_go_concat :
    ∀ S : List Bytes, S ≠ [] → ∀ f : Nat, (concatFrames S).length < f →
      get_message_go f (concatFrames S) = (S, none) := by
  intro S
  induction S with
  | nil => intro hne; exact absurd rfl hne
  | cons s rest ih =>
    intro _ f hf
    obtain ⟨g, rfl⟩ : ∃ g, f = g + 1 := ⟨f - 1, by omega⟩
    have hconc := concatFrames_cons s rest
    have hdv : decodeVar (concatFrames (s :: rest)) 0 0 =
        Except.ok (s.length, s ++ concatFrames rest) := by
      rw [hconc]
      rw [decodeVar_write_var_uint]
      simp
    simp only [get_message_go, hdv]
    rw [List.take_left]
    cases rest with
    | nil =>
      have hlen : (s ++ concatFrames []).length = s.length := by
        simp [concatFrames]
      rw [if_neg (by omega), if_pos (by omega)]
    | cons r rs =>
      have hpos : 0 < (concatFrames (r :: rs)).length :=
        List.length_pos.mpr (concatFrames_ne_nil r rs)
      have hlen : (s ++ concatFrames (r :: rs)).length =
          s.length + (concatFrames (r :: rs)).length := by
        simp
      rw [if_neg (by omega), if_neg (by omega)]
      rw [List.drop_left]
      have hrec : (concatFrames (r :: rs)).length < g := by
        have : (concatFrames (s :: r :: rs)).length =
            (write_var_uint s.length).length + s.length +
              (concatFrames (r :: rs)).length := by
          rw [hconc]; simp [Nat.add_assoc]
        have hw : 0 < (write_var_uint s.length).length :=
          List.length_pos.mpr (write_var_uint_ne_nil s.length)
        omega
      rw [ih (by simp) g hrec]

theorem get_message_loop_concat (S : List Bytes) (h : S ≠ []) :
    get_message_loop (concatFrames S) = (S, none) :=
  get_message_go_concat S h ((concatFrames S).length + 1) (by omega)

/-- The whole-input varint decoder fails with `IndexError` when every byte
has the high (continuation) bit set: the input is exhausted before a
terminating byte is found. -/
theorem decodeVar_exhausted :
    ∀ (bs : Bytes) (sh a : Nat), (∀ b ∈ bs, 128 ≤ b) →
      decodeVar bs sh a = Except.error PyErr.indexError := by
  intro bs
  induction bs with
  | nil => intro sh a _; rfl
  | cons b rest ih =>
    intro sh a hall
    simp only [decodeVar]
    rw [if_neg (by have := hall b (by simp); omega)]
    exact ih _ _ (fun x hx => hall x (by simp [hx]))

/-- Claim C3: varint round-trip.  For every non-negative integer `n < 2^31`,
decoding the base-128 varint encoding of `n` (the inner length-decode loop of
`get_message` applied to the output of `write_var_uint`) returns the pair
`(n, length of the encoding)`. -/
theorem C3_varint_round_trip (n : Nat) (h : n < 2 ^ 31) :
    decode_uint (write_var_uint n) = Except.ok (n, (write_var_uint n).length) := by
  have hd := decodeVar_write_var_uint n 0 0 []
  rw [List.append_nil] at hd
  unfold decode_uint
  rw [hd]
  simp [Except.map]

/-- Witness for C3 at the concrete input 300 (a two-byte encoding). -/
theorem C3_varint_round_trip_witness :
    300 < 2 ^ 31 ∧
      decode_uint (write_var_uint 300) = Except.ok (300, (write_var_uint 300).length) :=
  ⟨by norm_num, C3_varint_round_trip 300 (by norm_num)⟩

/-- Claim C4, counterexample: the claim includes the empty sequence, but
splitting the concatenation of an empty sequence of frames (the empty byte
string) raises `IndexError` (`message[i0]` on an empty input) instead of
returning the empty sequence. -/
theorem C4_split_empty_counterexample :
    ¬(get_message (concatFrames []) = Except.ok ([] : List Bytes)) ∧
      get_message (concatFrames []) = Except.error PyErr.indexError := by
  constructor
  · intro hc
    have : Except.error PyErr.indexError = (Except.ok ([] : List Bytes) : Except PyErr (List Bytes)) := by
      rw [show get_message (concatFrames []) = Except.error PyErr.indexError from rfl] at hc
      exact hc
    exact absurd this (by simp)
  · rfl

/-- Claim C4 (amended): for every NONEMPTY finite sequence `S` of byte
strings, splitting the concatenation of the varint-length-prefixed elements
of `S` yields exactly the elements of `S` in order; on the empty sequence
the splitter instead fails with `IndexError`. -/
theorem C4_frame_round_trip (S : List Bytes) (h : S ≠ []) :
    get_message (concatFrames S) = Except.ok S := by
  unfold get_message
  rw [get_message_loop_concat S h]

/-- Witness for C4 at a concrete three-frame sequence (with an empty frame). -/
theorem C4_frame_round_trip_witness :
    ([[42], [], [1, 2, 3]] : List Bytes) ≠ [] ∧
      get_message (concatFrames [[42], [], [1, 2, 3]]) =
        Except.ok ([[42], [], [1, 2, 3]] : List Bytes) :=
  ⟨by decide, C4_frame_round_trip [[42], [], [1, 2, 3]] (by decide)⟩

/-! ## State-machine helper lemmas -/

theorem deliver_conns (s : ServerState) (c : Nat) (m : Bytes) :
    (s.deliver c m).conns = s.conns := by
  unfold ServerState.deliver
  split
  · split <;> rfl
  · rfl

theorem deliver_rooms (s : ServerState) (c : Nat) (m : Bytes) :
    (s.deliver c m).rooms = s.rooms := by
  unfold ServerState.deliver
  split
  · split <;> rfl
  · rfl

theorem deliver_errors (s : ServerState) (c : Nat) (m : Bytes) :
    (s.deliver c m).errors = s.errors := by
  unfold ServerState.deliver
  split
  · split <;> rfl
  · rfl

theorem deliver_saves (s : ServerState) (c : Nat) (m : Bytes) :
    (s.deliver c m).saves = s.saves := by
  unfold ServerState.deliver
  split
  · split <;> rfl
  · rfl

theorem deliver_sent_open (s : ServerState) (c : Nat) (m : Bytes) (conn : Conn)
    (hc : s.conns c = some conn) (ho : conn.isOpen = true) :
    (s.deliver c m).sent = s.sent ++ [(c, m)] := by
  unfold ServerState.deliver
  rw [hc]
  simp [ho]

theorem deliver_sent_closed (s : ServerState) (c : Nat) (m : Bytes) (conn : Conn)
    (hc : s.conns c = some conn) (ho : conn.isOpen = false) :
    (s.deliver c m).sent = s.sent := by
  unfold ServerState.deliver
  rw [hc]
  simp [ho]

theorem setConn_rooms (s : ServerState) (c : Nat) (v : Conn) :
    (s.setConn c v).rooms = s.rooms := rfl

theorem setConn_conns (s : ServerState) (c : Nat) (v : Conn) (q : Nat) :
    (s.setConn c v).conns q = if q = c then some v else s.conns q := rfl

theorem connSkel_deliver (s : ServerState) (c : Nat) (m : Bytes) :
    connSkel (s.deliver c m) = connSkel s := by
  unfold connSkel
  rw [deliver_conns]

theorem connSkel_raise (s : ServerState) (e : PyErr) :
    connSkel (s.raise e) = connSkel s := rfl

theorem connSkel_setConn_same (s : ServerState) (c : Nat) (conn v : Conn)
    (hc : s.conns c = some conn) (hroom : v.roomId = conn.roomId)
    (hopen : v.isOpen = conn.isOpen) :
    connSkel (s.setConn c v) = connSkel s := by
  funext q
  unfold connSkel
  rw [setConn_conns]
  by_cases hq : q = c
  · subst hq
    rw [if_pos rfl, hc]
    simp [hroom, hopen]
  · rw [if_neg hq]

theorem fireTask_rooms (s : ServerState) (c : Nat) :
    (fireTask s c).rooms = s.rooms := by
  unfold fireTask
  split
  · rfl
  · split
    · rfl
    · rw [deliver_rooms]
      rfl

theorem connSkel_fireTask (s : ServerState) (c : Nat) :
    connSkel (fireTask s c) = connSkel s := by
  unfold fireTask
  split
  · rfl
  · rename_i conn hc
    split
    · rfl
    · rename_i task ht
      dsimp only
      rw [connSkel_deliver]
      exact connSkel_setConn_same s c conn _ hc rfl rfl

theorem foldl_fireTask_rooms (l : List (Nat × Nat)) :
    ∀ s : ServerState, (l.foldl (fun acc tc => fireTask acc tc.2) s).rooms = s.rooms := by
  induction l with
  | nil => intro s; rfl
  | cons x xs ih =>
    intro s
    simp only [List.foldl_cons]
    rw [ih (fireTask s x.2), fireTask_rooms]

theorem foldl_fireTask_skel (l : List (Nat × Nat)) :
    ∀ s : ServerState, connSkel (l.foldl (fun acc tc => fireTask acc tc.2) s) = connSkel s := by
  induction l with
  | nil => intro s; rfl
  | cons x xs ih =>
    intro s
    simp only [List.foldl_cons]
    rw [ih (fireTask s x.2), connSkel_fireTask]

theorem fireDue_rooms (s : ServerState) (b : Option Nat) :
    (fireDue s b).rooms = s.rooms := foldl_fireTask_rooms _ s

theorem connSkel_fireDue (s : ServerState) (b : Option Nat) :
    connSkel (fireDue s b) = connSkel s := foldl_fireTask_skel _ s

theorem conns_none_of_skel {s₁ s₂ : ServerState} (h : connSkel s₂ = connSkel s₁)
    (c : Nat) : s₂.conns c = none ↔ s₁.conns c = none := by
  have h2 := congrFun h c
  unfold connSkel at h2
  cases hx : s₂.conns c <;> cases hy : s₁.conns c <;> simp [hx, hy] at h2 <;> simp [hx, hy]

/-- `split(":", 1)` on a `kind ++ ":" ++ path` byte string with no colon in
`kind`. -/
theorem splitFirst_append (kind path : Bytes) (h : 58 ∉ kind) :
    splitFirst 58 (kind ++ 58 :: path) = some (kind, path) := by
  induction kind with
  | nil => simp [splitFirst]
  | cons b bs ih =>
    have hb : b ≠ 58 := by intro hc; exact h (by simp [hc])
    simp only [List.cons_append, splitFirst, List.append_eq]
    rw [if_neg hb, ih (fun hm => h (by simp [hm]))]
    rfl

theorem deliver_eq_open (s : ServerState) (c : Nat) (m : Bytes) (conn : Conn)
    (hc : s.conns c = some conn) (ho : conn.isOpen = true) :
    s.deliver c m = { s with sent := s.sent ++ [(c, m)] } := by
  unfold ServerState.deliver
  rw [hc]
  simp [ho]

/-- The broadcast fold (lines 128-130) delivers the frame to exactly the
non-sender clients, in room order, when all listed clients are open. -/
theorem foldl_deliver_broadcast (msg : Bytes) (connId : Nat) :
    ∀ (l : List Nat) (s : ServerState), (∀ c ∈ l, connOpen s c) →
      l.foldl (fun acc c => if c ≠ connId then acc.deliver c msg else acc) s =
        { s with sent := s.sent ++
          (l.filter (fun c => decide (c ≠ connId))).map (fun c => (c, msg)) } := by
  intro l
  induction l with
  | nil => intro s _; simp
  | cons c cs ih =>
    intro s hall
    simp only [List.foldl_cons, List.filter_cons]
    by_cases hc : c ≠ connId
    · obtain ⟨conn, hcc, ho⟩ := hall c (by simp)
      rw [if_pos hc, deliver_eq_open s c msg conn hcc ho]
      rw [ih { s with sent := s.sent ++ [(c, msg)] }
        (fun x hx => hall x (List.mem_cons_of_mem c hx))]
      simp [hc]
    · rw [if_neg hc]
      rw [ih s (fun x hx => hall x (List.mem_cons_of_mem c hx))]
      simp [hc]

/-- The SyncStep1 reply fold (lines 204-206) appends one reply to the sender
per decoded frame. -/
theorem foldl_deliver_self (connId : Nat) (g : Bytes → Bytes) :
    ∀ (l : List Bytes) (s : ServerState), connOpen s connId →
      l.foldl (fun acc f => acc.deliver connId (g f)) s =
        { s with sent := s.sent ++ l.map (fun f => (connId, g f)) } := by
  intro l
  induction l with
  | nil => intro s _; simp
  | cons f fs ih =>
    intro s hopen
    obtain ⟨conn, hcc, ho⟩ := hopen
    simp only [List.foldl_cons]
    rw [deliver_eq_open s connId (g f) conn hcc ho]
    rw [ih { s with sent := s.sent ++ [(connId, g f)] } ⟨conn, hcc, ho⟩]
    simp

/-- `maybe_save_document` never raises when the handler and its room exist,
and touches only the sender's save-task slot. -/
theorem maybe_save_fields (s : ServerState) (connId now : Nat) (conn : Conn)
    (room : YjsRoom) (hc : s.conns connId = some conn)
    (hr : s.effRoom conn.roomId = some room) :
    (maybe_save_document s connId now).2 = false ∧
    (maybe_save_document s connId now).1.rooms = s.rooms ∧
    (maybe_save_document s connId now).1.sent = s.sent ∧
    (maybe_save_document s connId now).1.errors = s.errors ∧
    connSkel (maybe_save_document s connId now).1 = connSkel s := by
  unfold maybe_save_document
  simp only [hc, hr]
  by_cases hd : room.ydoc.dirty
  · simp only [hd, Bool.not_true, Bool.false_eq_true, if_false]
    cases hsrc : room.ydoc.trySource with
    | none =>
      refine ⟨rfl, rfl, rfl, rfl, ?_⟩
      exact connSkel_setConn_same s connId conn _ hc rfl rfl
    | some src =>
      refine ⟨rfl, rfl, rfl, rfl, ?_⟩
      exact connSkel_setConn_same s connId conn _ hc rfl rfl
  · simp only [Bool.not_eq_true] at hd
    simp [hd]

/-! ## Claim C1 — persistence task coalescing -/

/-- Claim C1, counterexample: the pending-save slot is per CONNECTION
(`self.saving_document`), not per room.  Five Update frames sent to the same
room within the debounce window — four from connection 1 and one from
connection 2 — leave two pending tasks for the room simultaneously and
produce TWO storage writes, not one. -/
theorem C1_per_room_debounce_counterexample :
    (runEvents initState [(0, Event.evOpen 1 [102, 105, 108, 101, 58, 97]),
        (0, Event.evOpen 2 [102, 105, 108, 101, 58, 97]),
        (1, Event.evMsg 1 [0, 2, 1, 42]), (1, Event.evMsg 1 [0, 2, 1, 42]),
        (1, Event.evMsg 1 [0, 2, 1, 42]), (1, Event.evMsg 1 [0, 2, 1, 42]),
        (1, Event.evMsg 2 [0, 2, 1, 42])]).conns 1 =
      some ⟨[97], true, some ⟨2, Saved.raw [42, 42, 42, 42]⟩⟩ ∧
    (runEvents initState [(0, Event.evOpen 1 [102, 105, 108, 101, 58, 97]),
        (0, Event.evOpen 2 [102, 105, 108, 101, 58, 97]),
        (1, Event.evMsg 1 [0, 2, 1, 42]), (1, Event.evMsg 1 [0, 2, 1, 42]),
        (1, Event.evMsg 1 [0, 2, 1, 42]), (1, Event.evMsg 1 [0, 2, 1, 42]),
        (1, Event.evMsg 2 [0, 2, 1, 42])]).conns 2 =
      some ⟨[97], true, some ⟨2, Saved.raw [42, 42, 42, 42, 42]⟩⟩ ∧
    (runAll initState [(0, Event.evOpen 1 [102, 105, 108, 101, 58, 97]),
        (0, Event.evOpen 2 [102, 105, 108, 101, 58, 97]),
        (1, Event.evMsg 1 [0, 2, 1, 42]), (1, Event.evMsg 1 [0, 2, 1, 42]),
        (1, Event.evMsg 1 [0, 2, 1, 42]), (1, Event.evMsg 1 [0, 2, 1, 42]),
        (1, Event.evMsg 2 [0, 2, 1, 42])]).saves.length = 2 := by
  refine ⟨by decide, by decide, by decide⟩

/-- Claim C1 (amended): the pending persistence task is tracked per
CONNECTION: scheduling a new attempt cancels only the sender's own pending
task, replacing it with one that fires one debounce unit after the latest
frame; consequently five Update frames from the SAME connection within the
window produce exactly one storage write, timed from the last frame, while
frames from different connections can leave several tasks pending for one
room (see the counterexample).  First conjunct: the general cancel-replace
property of `maybe_save_document`; second: the five-frame single-connection
scenario, whose single write fires at time 2 = last frame + 1. -/
theorem C1_per_connection_debounce :
    (∀ (s : ServerState) (connId now : Nat) (conn : Conn) (room : YjsRoom)
      (src : Bytes),
      s.conns connId = some conn → conn.isOpen = true →
      s.effRoom conn.roomId = some room → room.ydoc.dirty = true →
      room.ydoc.trySource = some src →
      (maybe_save_document s connId now).1.conns connId =
        some { conn with savingDocument := some ⟨now + 1,
          if room.type = notebookBytes then Saved.jsonIndent2 src
          else Saved.raw src⟩ }) ∧
    (runAll initState [(0, Event.evOpen 1 [102, 105, 108, 101, 58, 97]),
        (1, Event.evMsg 1 [0, 2, 1, 42]), (1, Event.evMsg 1 [0, 2, 1, 42]),
        (1, Event.evMsg 1 [0, 2, 1, 42]), (1, Event.evMsg 1 [0, 2, 1, 42]),
        (1, Event.evMsg 1 [0, 2, 1, 42])]).saves =
      [(2, [97], Saved.raw [42, 42, 42, 42, 42])] := by
  constructor
  · intro s connId now conn room src hc ho hr hd hsrc
    unfold maybe_save_document
    simp only [hc, hr, hd, Bool.not_true, Bool.false_eq_true, if_false, hsrc]
    rw [setConn_conns, if_pos rfl]
  · decide

/-- Witness for the general conjunct of C1 at a concrete state with a stale
pending task (fire time 9) that is replaced by the freshly scheduled one
(fire time 6 = now 5 + 1). -/
theorem C1_per_connection_debounce_witness :
    (maybe_save_document
        ⟨fun k => if k = [97] then
            some (some ⟨[102, 105, 108, 101], [1], [], ⟨[[42]], true⟩⟩) else none,
          fun c => if c = 1 then some ⟨[97], true, some ⟨9, Saved.raw []⟩⟩ else none,
          [1], [], [], []⟩ 1 5).1.conns 1 =
      some ⟨[97], true, some ⟨6, Saved.raw [42]⟩⟩ :=
  C1_per_connection_debounce.1
    ⟨fun k => if k = [97] then
        some (some ⟨[102, 105, 108, 101], [1], [], ⟨[[42]], true⟩⟩) else none,
      fun c => if c = 1 then some ⟨[97], true, some ⟨9, Saved.raw []⟩⟩ else none,
      [1], [], [], []⟩ 1 5 ⟨[97], true, some ⟨9, Saved.raw []⟩⟩
    ⟨[102, 105, 108, 101], [1], [], ⟨[[42]], true⟩⟩ [42]
    rfl rfl rfl rfl rfl

/-! ## Claim C2 — what firing the persistence timer does -/

/-- Claim C2, counterexample: with two clients connected to the room, one
Update frame and the subsequent timer fire produce the storage write, but
the `content-saved` frame goes ONLY to the connection that scheduled the
save (connection 1) — client 2 gets only the broadcast Update — and the
dirty flag is NOT cleared (the clearing line is commented out in the
source). -/
theorem C2_save_notification_counterexample :
    (runAll initState [(0, Event.evOpen 1 [102, 105, 108, 101, 58, 97]),
        (0, Event.evOpen 2 [102, 105, 108, 101, 58, 97]),
        (1, Event.evMsg 1 [0, 2, 1, 42])]).saves = [(2, [97], Saved.raw [42])] ∧
    (runAll initState [(0, Event.evOpen 1 [102, 105, 108, 101, 58, 97]),
        (0, Event.evOpen 2 [102, 105, 108, 101, 58, 97]),
        (1, Event.evMsg 1 [0, 2, 1, 42])]).sent =
      [(1, [0, 0, 1, 0]), (2, [0, 0, 1, 0]), (2, [0, 2, 1, 42]), (1, [124, 1])] ∧
    ((runAll initState [(0, Event.evOpen 1 [102, 105, 108, 101, 58, 97]),
        (0, Event.evOpen 2 [102, 105, 108, 101, 58, 97]),
        (1, Event.evMsg 1 [0, 2, 1, 42])]).effRoom [97]).map
      (fun r => r.ydoc.dirty) = some true := by
  refine ⟨by decide, by decide, by decide⟩

/-- Claim C2 (amended): when the persistence timer fires it writes the
captured materialized source to the path read from the connection's room key
at fire time, does NOT clear the dirty flag (no room is modified at all),
sends the `content-saved` frame `[124, 1]` to the scheduling connection only
— not to every client of the room — and tolerates (does not raise on) a
connection that has since closed. -/
theorem C2_save_fire (s : ServerState) (connId : Nat) (conn : Conn)
    (task : SaveTask) (hc : s.conns connId = some conn)
    (ht : conn.savingDocument = some task) :
    (fireTask s connId).saves = s.saves ++ [(task.fireTime, conn.roomId, task.source)] ∧
    (fireTask s connId).rooms = s.rooms ∧
    (fireTask s connId).errors = s.errors ∧
    (conn.isOpen = true → (fireTask s connId).sent = s.sent ++ [(connId, [124, 1])]) ∧
    (conn.isOpen = false → (fireTask s connId).sent = s.sent) := by
  unfold fireTask
  simp only [hc, ht]
  have hc2 : ∀ sx : ServerState, sx.conns = (s.setConn connId
      { conn with savingDocument := none }).conns → sx.conns connId =
      some { conn with savingDocument := none } := by
    intro sx hx
    rw [hx, setConn_conns, if_pos rfl]
  refine ⟨?_, ?_, ?_, ?_, ?_⟩
  · rw [deliver_saves]
    rfl
  · rw [deliver_rooms]
    rfl
  · rw [deliver_errors]
    rfl
  · intro ho
    rw [deliver_sent_open { (s.setConn connId { conn with savingDocument := none }) with
        saves := (s.setConn connId { conn with savingDocument := none }).saves ++
          [(task.fireTime, conn.roomId, task.source)] }
      connId [124, 1] { conn with savingDocument := none } (hc2 _ rfl) ho]
    rfl
  · intro ho
    rw [deliver_sent_closed { (s.setConn connId { conn with savingDocument := none }) with
        saves := (s.setConn connId { conn with savingDocument := none }).saves ++
          [(task.fireTime, conn.roomId, task.source)] }
      connId [124, 1] { conn with savingDocument := none } (hc2 _ rfl) ho]
    rfl

/-- Witness for C2 at a concrete state whose sole connection has already
closed: the write still happens, no exception is recorded, and no frame is
delivered (the closed-socket failure is tolerated). -/
theorem C2_save_fire_witness :
    (fireTask ⟨fun _ => none,
        fun c => if c = 1 then some ⟨[97], false, some ⟨7, Saved.raw [1]⟩⟩ else none,
        [1], [], [], []⟩ 1).saves = [] ++ [(7, [97], Saved.raw [1])] ∧
      (fireTask ⟨fun _ => none,
        fun c => if c = 1 then some ⟨[97], false, some ⟨7, Saved.raw [1]⟩⟩ else none,
        [1], [], [], []⟩ 1).errors = [] ∧
      (fireTask ⟨fun _ => none,
        fun c => if c = 1 then some ⟨[97], false, some ⟨7, Saved.raw [1]⟩⟩ else none,
        [1], [], [], []⟩ 1).sent = [] := by
  have h := C2_save_fire ⟨fun _ => none,
    fun c => if c = 1 then some ⟨[97], false, some ⟨7, Saved.raw [1]⟩⟩ else none,
    [1], [], [], []⟩ 1 ⟨[97], false, some ⟨7, Saved.raw [1]⟩⟩ ⟨7, Saved.raw [1]⟩ rfl rfl
  exact ⟨h.1, h.2.2.1, h.2.2.2.2 rfl⟩

/-! ## More handler lemmas -/

theorem append_singleton_ne {α : Type} (l : List α) (e : α) : l ++ [e] ≠ l := by
  intro h
  have := congrArg List.length h
  simp at this

theorem connOpen_of_skel {s₁ s₂ : ServerState} (h : connSkel s₂ = connSkel s₁)
    (c : Nat) : connOpen s₁ c → connOpen s₂ c := by
  intro ⟨conn, hc, ho⟩
  have h2 := congrFun h c
  unfold connSkel at h2
  rw [hc] at h2
  cases hx : s₂.conns c with
  | none => rw [hx] at h2; simp at h2
  | some conn₂ =>
    rw [hx] at h2
    simp at h2
    exact ⟨conn₂, hx, by rw [h2.2, ho]⟩

theorem effRoom_setRoomEntry_self (s : ServerState) (k : Bytes) (v : Option YjsRoom) :
    (s.setRoomEntry k v).effRoom k = v := by
  unfold ServerState.effRoom ServerState.setRoomEntry
  simp

/-- Reduction of `on_message` to its `elif self.room:` branch for a
non-control frame from a live connection whose room exists. -/
theorem ws_on_message_else (s : ServerState) (connId now b : Nat) (payload : Bytes)
    (conn : Conn) (room : YjsRoom) (hc : s.conns connId = some conn)
    (ho : conn.isOpen = true) (h127 : b ≠ 127) (h126 : b ≠ 126) (h125 : b ≠ 125)
    (hr : s.effRoom conn.roomId = some room) :
    ws_on_message s connId now (b :: payload) =
      if b = 0 then
        (if (read_sync_message s connId conn.roomId room payload).2 then
          (read_sync_message s connId conn.roomId room payload).1
        else
          if (maybe_save_document
              (read_sync_message s connId conn.roomId room payload).1 connId now).2 then
            (maybe_save_document
              (read_sync_message s connId conn.roomId room payload).1 connId now).1
          else broadcastFrame (maybe_save_document
              (read_sync_message s connId conn.roomId room payload).1 connId now).1
            connId conn.roomId (b :: payload))
      else broadcastFrame s connId conn.roomId (b :: payload) := by
  unfold ws_on_message
  simp only [hc, ho, Bool.not_true, Bool.false_eq_true, if_false, hr]
  rw [if_neg h127, if_neg h126, if_neg h125]

/-! ## Claim C5 — truncated varint -/

/-- Claim C5, counterexample: on the truncated varint `[0x80]` (high bit set,
input exhausted), decoding does NOT fail with the module's protocol error
(`RuntimeError("Y protocol error")`, the realization of the spec's
ProtocolError); it fails with an uncaught `IndexError` from `message[i0]`. -/
theorem C5_protocol_error_counterexample :
    decode_uint [128] = Except.error PyErr.indexError ∧
      decode_uint [128] ≠ Except.error protocolError := by
  constructor
  · rfl
  · intro h
    have h0 : (Except.error PyErr.indexError : Except PyErr (Nat × Nat)) =
        Except.error protocolError := by rw [← h]; rfl
    simp [protocolError] at h0

/-- Claim C5 (amended): for every byte sequence exhausted before a
terminating byte (all bytes have the high bit set), varint decoding fails —
with `IndexError`, not the protocol `RuntimeError` — and a SyncStep1 frame
followed by a truncated varint length leaves the registry (hence the state
of every room) and the storage log unchanged, scoping the failure to the
offending connection. -/
theorem C5_truncated_varint_fails :
    (∀ bs : Bytes, (∀ b ∈ bs, 128 ≤ b) →
      decode_uint bs = Except.error PyErr.indexError) ∧
    (∀ (s : ServerState) (connId now : Nat),
      (ws_on_message s connId now [0, 0, 128]).rooms = s.rooms ∧
      (ws_on_message s connId now [0, 0, 128]).saves = s.saves) := by
  constructor
  · intro bs hall
    unfold decode_uint
    rw [decodeVar_exhausted bs 0 0 hall]
    rfl
  · intro s connId now
    unfold ws_on_message
    cases hc : s.conns connId with
    | none => exact ⟨rfl, rfl⟩
    | some conn =>
      cases ho : conn.isOpen with
      | false => simp [ho]
      | true =>
        simp only [ho, Bool.not_true, Bool.false_eq_true, if_false]
        cases hr : s.effRoom conn.roomId with
        | none => exact ⟨rfl, rfl⟩
        | some room => exact ⟨rfl, rfl⟩

/-- Witness for C5: a two-byte all-continuation input, and the SyncStep1
scenario run from the initial state. -/
theorem C5_truncated_varint_fails_witness :
    (∀ b ∈ ([128, 200] : Bytes), 128 ≤ b) ∧
      decode_uint [128, 200] = Except.error PyErr.indexError ∧
      (ws_on_message initState 1 0 [0, 0, 128]).rooms = initState.rooms :=
  ⟨by decide, C5_truncated_varint_fails.1 [128, 200] (by decide),
    (C5_truncated_varint_fails.2 initState 1 0).1⟩

/-! ## Claim C6 — unknown message types -/

/-- Claim C6, counterexample: a frame with leading byte 3 — neither a sync
type nor a reserved control marker — is NOT rejected with a ProtocolError:
it is broadcast verbatim to the other client of the room, with no exception
raised. -/
theorem C6_unknown_type_counterexample :
    (runEvents initState [(0, Event.evOpen 1 [102, 105, 108, 101, 58, 97]),
        (0, Event.evOpen 2 [102, 105, 108, 101, 58, 97]),
        (1, Event.evMsg 1 [3])]).errors = [] ∧
    (runEvents initState [(0, Event.evOpen 1 [102, 105, 108, 101, 58, 97]),
        (0, Event.evOpen 2 [102, 105, 108, 101, 58, 97]),
        (1, Event.evMsg 1 [3])]).sent =
      [(1, [0, 0, 1, 0]), (2, [0, 0, 1, 0]), (2, [3])] := by
  refine ⟨by decide, by decide⟩

/-- Claim C6 (amended): only the INNER sync-message type byte (the second
byte of a frame whose leading byte is 0) is checked: a sync frame whose
inner type is not 0/1/2 raises `RuntimeError("Unknown message type")` and
changes no room and sends nothing; any frame whose LEADING byte is outside
{0, 125, 126, 127} is not rejected at all — it is broadcast verbatim to the
other clients of the sender's room without error. -/
theorem C6_unknown_message_type :
    (∀ (s : ServerState) (connId now b : Nat) (payload : Bytes) (conn : Conn)
      (room : YjsRoom), s.conns connId = some conn → conn.isOpen = true →
      b ≠ 0 → b ≠ 125 → b ≠ 126 → b ≠ 127 →
      s.effRoom conn.roomId = some room →
      (∀ c ∈ room.clients, connOpen s c) →
      (ws_on_message s connId now (b :: payload)).errors = s.errors ∧
      (ws_on_message s connId now (b :: payload)).sent = s.sent ++
        (room.clients.filter (fun c => decide (c ≠ connId))).map
          (fun c => (c, b :: payload))) ∧
    (∀ (s : ServerState) (connId now t : Nat) (rest : Bytes) (conn : Conn)
      (room : YjsRoom), s.conns connId = some conn → conn.isOpen = true →
      s.effRoom conn.roomId = some room →
      t ≠ 0 → t ≠ 1 → t ≠ 2 →
      (ws_on_message s connId now (0 :: t :: rest)).errors =
        s.errors ++ [PyErr.runtimeError "Unknown message type"] ∧
      (ws_on_message s connId now (0 :: t :: rest)).sent = s.sent ∧
      (ws_on_message s connId now (0 :: t :: rest)).rooms = s.rooms) := by
  constructor
  · intro s connId now b payload conn room hc ho hb0 hb125 hb126 hb127 hr hall
    rw [ws_on_message_else s connId now b payload conn room hc ho hb127 hb126 hb125 hr]
    rw [if_neg hb0]
    have hb : broadcastFrame s connId conn.roomId (b :: payload) =
        room.clients.foldl
          (fun acc c => if c ≠ connId then acc.deliver c (b :: payload) else acc) s := by
      unfold broadcastFrame
      rw [hr]
    rw [hb, foldl_deliver_broadcast (b :: payload) connId room.clients s hall]
    exact ⟨rfl, rfl⟩
  · intro s connId now t rest conn room hc ho hr ht0 ht1 ht2
    rw [ws_on_message_else s connId now 0 (t :: rest) conn room hc ho
      (by decide) (by decide) (by decide) hr]
    rw [if_pos rfl]
    have hrs : read_sync_message s connId conn.roomId room (t :: rest) =
        (s.raise (PyErr.runtimeError "Unknown message type"), true) := by
      unfold read_sync_message
      simp only []
      rw [if_neg ht0, if_neg (by
        intro hor
        cases hor with
        | inl h1 => exact ht1 h1
        | inr h2 => exact ht2 h2)]
    rw [hrs]
    exact ⟨rfl, rfl, rfl⟩

/-- Witness for C6: leading byte 3 broadcast to the other client of a
two-client room, and inner type 5 rejected; both at a concrete state. -/
theorem C6_unknown_message_type_witness :
    ((ws_on_message
        ⟨fun k => if k = [97] then
            some (some ⟨[102, 105, 108, 101], [1, 2], [], YDoc.init⟩) else none,
          fun c => if c = 1 then some ⟨[97], true, none⟩
            else if c = 2 then some ⟨[97], true, none⟩ else none,
          [1, 2], [], [], []⟩ 1 0 [3]).sent = [] ++ [(2, [3])]) ∧
    ((ws_on_message
        ⟨fun k => if k = [97] then
            some (some ⟨[102, 105, 108, 101], [1, 2], [], YDoc.init⟩) else none,
          fun c => if c = 1 then some ⟨[97], true, none⟩
            else if c = 2 then some ⟨[97], true, none⟩ else none,
          [1, 2], [], [], []⟩ 1 0 [0, 5, 9]).errors =
      [] ++ [PyErr.runtimeError "Unknown message type"]) := by
  constructor
  · exact (C6_unknown_message_type.1
      ⟨fun k => if k = [97] then
          some (some ⟨[102, 105, 108, 101], [1, 2], [], YDoc.init⟩) else none,
        fun c => if c = 1 then some ⟨[97], true, none⟩
          else if c = 2 then some ⟨[97], true, none⟩ else none,
        [1, 2], [], [], []⟩ 1 0 3 [] ⟨[97], true, none⟩
      ⟨[102, 105, 108, 101], [1, 2], [], YDoc.init⟩ rfl rfl
      (by decide) (by decide) (by decide) (by decide) rfl
      (by
        intro c hcm
        have hc12 : c = 1 ∨ c = 2 := by simpa using hcm
        cases hc12 with
        | inl h => subst h; exact ⟨⟨[97], true, none⟩, rfl, rfl⟩
        | inr h => subst h; exact ⟨⟨[97], true, none⟩, rfl, rfl⟩)).2
  · exact (C6_unknown_message_type.2
      ⟨fun k => if k = [97] then
          some (some ⟨[102, 105, 108, 101], [1, 2], [], YDoc.init⟩) else none,
        fun c => if c = 1 then some ⟨[97], true, none⟩
          else if c = 2 then some ⟨[97], true, none⟩ else none,
        [1, 2], [], [], []⟩ 1 0 5 [9] ⟨[97], true, none⟩
      ⟨[102, 105, 108, 101], [1, 2], [], YDoc.init⟩ rfl rfl rfl
      (by decide) (by decide) (by decide)).1

/-! ## Claim C7 — rename-session -/

/-- Claim C7, evaluated at the failing input: one client in room "a" sends a
rename frame (125 followed by "a:b").  The room object IS moved to key "b"
and the "a" entry removed, but then the handler re-reads `self.room` — now
`None` — and crashes with `AttributeError` BEFORE updating any client's room
key pointer (connection 1 still points at "a") and BEFORE sending the
acknowledgment `[125, 1]` (nothing but the handshake was ever sent). -/
theorem C7_rename_crashes :
    (runEvents initState [(0, Event.evOpen 1 [102, 105, 108, 101, 58, 97]),
        (1, Event.evMsg 1 [125, 97, 58, 98])]).errors = [PyErr.attributeError] ∧
    (runEvents initState [(0, Event.evOpen 1 [102, 105, 108, 101, 58, 97]),
        (1, Event.evMsg 1 [125, 97, 58, 98])]).rooms [98] =
      some (some ⟨[102, 105, 108, 101], [1], [], YDoc.init⟩) ∧
    (runEvents initState [(0, Event.evOpen 1 [102, 105, 108, 101, 58, 97]),
        (1, Event.evMsg 1 [125, 97, 58, 98])]).rooms [97] = none ∧
    (runEvents initState [(0, Event.evOpen 1 [102, 105, 108, 101, 58, 97]),
        (1, Event.evMsg 1 [125, 97, 58, 98])]).conns 1 =
      some ⟨[97], true, none⟩ ∧
    (runEvents initState [(0, Event.evOpen 1 [102, 105, 108, 101, 58, 97]),
        (1, Event.evMsg 1 [125, 97, 58, 98])]).sent = [(1, [0, 0, 1, 0])] := by
  refine ⟨by decide, by decide, by decide, by decide, by decide⟩

/-! ## Claim C8 — registry invariant -/

/-- Claim C8, counterexample: open a connection to room "a", rename it to
"b" (which moves the room but crashes before updating the client's room key),
then close the connection.  `on_close` looks the room up under the STALE key
"a", finds nothing, and crashes; the room object stays registered under "b"
listing only the now-disconnected client — a registered room with zero
connected clients that is never removed. -/
theorem C8_registry_counterexample :
    ¬ registryClientInv (runEvents initState
      [(0, Event.evOpen 1 [102, 105, 108, 101, 58, 97]),
        (1, Event.evMsg 1 [125, 97, 58, 98]), (2, Event.evClose 1)]) := by
  intro h
  obtain ⟨c, hcm, conn, hconn, hopen⟩ :=
    h [98] ⟨[102, 105, 108, 101], [1], [], YDoc.init⟩ rfl
  have hc1 : c = 1 := by simpa using hcm
  subst hc1
  have hdef : (runEvents initState
      [(0, Event.evOpen 1 [102, 105, 108, 101, 58, 97]),
        (1, Event.evMsg 1 [125, 97, 58, 98]), (2, Event.evClose 1)]).conns 1 =
      some ⟨[97], false, none⟩ := by decide
  have hconn2 : some conn = some (⟨[97], false, none⟩ : Conn) := by
    rw [← hconn, hdef]
  have hcc : conn = ⟨[97], false, none⟩ := Option.some.inj hconn2
  rw [hcc] at hopen
  exact absurd hopen (by decide)

/-! ## Claim C10 — open handshake -/

theorem setRoomEntry_rooms_self (s : ServerState) (k : Bytes) (v : Option YjsRoom) :
    (s.setRoomEntry k v).rooms k = some v := by
  unfold ServerState.setRoomEntry
  simp

/-- Claim C10: for every connection target `kind:path` (first colon splits),
the Open transition registers the connection under the room keyed `path` —
creating the room with its document from `kind` when absent, joining the
existing room otherwise — records `path` as the connection's room key, and
immediately sends this client the 4-byte SyncStep1 handshake exactly
`[0, 0, 1, 0]`, for every room kind. -/
theorem C10_open_handshake (s : ServerState) (connId : Nat) (kind path : Bytes)
    (hfresh : s.conns connId = none) (hkind : 58 ∉ kind) :
    (s.effRoom path = none →
      (ws_open s connId (kind ++ 58 :: path)).rooms path =
        some (some ⟨kind, [connId], [], YDoc.init⟩)) ∧
    (∀ r : YjsRoom, s.effRoom path = some r →
      (ws_open s connId (kind ++ 58 :: path)).rooms path =
        some (some { r with clients :=
          if connId ∈ r.clients then r.clients else r.clients ++ [connId] })) ∧
    (ws_open s connId (kind ++ 58 :: path)).conns connId =
      some ⟨path, true, none⟩ ∧
    (ws_open s connId (kind ++ 58 :: path)).sent =
      s.sent ++ [(connId, [0, 0, 1, 0])] := by
  have hopen : ws_open s connId (kind ++ 58 :: path) =
      ServerState.deliver
        ((s.setConn connId ⟨path, true, none⟩).setRoomEntry path
          (some { (s.effRoom path).getD (YjsRoom.new kind) with clients :=
            if connId ∈ ((s.effRoom path).getD (YjsRoom.new kind)).clients
            then ((s.effRoom path).getD (YjsRoom.new kind)).clients
            else ((s.effRoom path).getD (YjsRoom.new kind)).clients ++ [connId] }))
        connId [0, 0, 1, 0] := by
    unfold ws_open
    rw [splitFirst_append kind path hkind]
  have hconn : (ws_open s connId (kind ++ 58 :: path)).conns connId =
      some ⟨path, true, none⟩ := by
    rw [hopen, deliver_conns]
    show (s.setConn connId ⟨path, true, none⟩).conns connId = _
    rw [setConn_conns, if_pos rfl]
  refine ⟨?_, ?_, hconn, ?_⟩
  · intro hne
    rw [hopen, deliver_rooms]
    rw [setRoomEntry_rooms_self]
    rw [hne]
    simp [YjsRoom.new]
  · intro r hre
    rw [hopen, deliver_rooms]
    rw [setRoomEntry_rooms_self]
    rw [hre]
    rfl
  · rw [hopen]
    rw [deliver_sent_open _ connId [0, 0, 1, 0] ⟨path, true, none⟩ (by
      show (s.setConn connId ⟨path, true, none⟩).conns connId = _
      rw [setConn_conns, if_pos rfl]) rfl]
    rfl

/-- Witness for C10 at the initial state with target "file:/tmp/a.txt". -/
theorem C10_open_handshake_witness :
    initState.conns 1 = none ∧
      (ws_open initState 1 ([102, 105, 108, 101] ++ 58 ::
        [47, 116, 109, 112, 47, 97, 46, 116, 120, 116])).rooms
          [47, 116, 109, 112, 47, 97, 46, 116, 120, 116] =
        some (some ⟨[102, 105, 108, 101], [1], [], YDoc.init⟩) ∧
      (ws_open initState 1 ([102, 105, 108, 101] ++ 58 ::
        [47, 116, 109, 112, 47, 97, 46, 116, 120, 116])).sent =
        initState.sent ++ [(1, [0, 0, 1, 0])] :=
  ⟨rfl,
    (C10_open_handshake initState 1 [102, 105, 108, 101]
      [47, 116, 109, 112, 47, 97, 46, 116, 120, 116] rfl (by decide)).1 rfl,
    (C10_open_handshake initState 1 [102, 105, 108, 101]
      [47, 116, 109, 112, 47, 97, 46, 116, 120, 116] rfl (by decide)).2.2.2⟩

/-! ## Claim C9 — broadcast exclusion -/

theorem setRoomEntry_conns (s : ServerState) (k : Bytes) (v : Option YjsRoom) :
    (s.setRoomEntry k v).conns = s.conns := rfl

theorem connSkel_setRoomEntry (s : ServerState) (k : Bytes) (v : Option YjsRoom) :
    connSkel (s.setRoomEntry k v) = connSkel s := rfl

theorem syncStep2Frame_ne (d : YDoc) (sv payload : Bytes) :
    syncStep2Frame d sv ≠ 0 :: payload := by
  intro h
  unfold syncStep2Frame at h
  injection h with h1
  exact absurd h1 (by decide)

/-- Claim C9: every inbound frame that is not a handled control message
(leading byte outside {125, 126, 127}) and whose processing raises no
exception is delivered verbatim to exactly the other clients of the
sender's room, in room order, and never echoed back to the sender: whatever
else is sent during processing (SyncStep2 replies) goes to the sender only
and differs from the raw frame. -/
theorem C9_broadcast_exclusion (s : ServerState) (connId now b : Nat)
    (payload : Bytes) (conn : Conn) (room : YjsRoom)
    (hc : s.conns connId = some conn) (ho : conn.isOpen = true)
    (h125 : b ≠ 125) (h126 : b ≠ 126) (h127 : b ≠ 127)
    (hr : s.effRoom conn.roomId = some room)
    (hall : ∀ c ∈ room.clients, connOpen s c)
    (hok : (ws_on_message s connId now (b :: payload)).errors = s.errors) :
    ∃ replies : List (Nat × Bytes),
      (ws_on_message s connId now (b :: payload)).sent =
        s.sent ++ replies ++ (room.clients.filter (fun c => decide (c ≠ connId))).map
          (fun c => (c, b :: payload)) ∧
      ∀ p ∈ replies, p.1 = connId ∧ p.2 ≠ b :: payload := by
  rw [ws_on_message_else s connId now b payload conn room hc ho h127 h126 h125 hr]
    at hok ⊢
  by_cases hb0 : b = 0
  case neg =>
    rw [if_neg hb0] at hok ⊢
    have hb : broadcastFrame s connId conn.roomId (b :: payload) =
        room.clients.foldl
          (fun acc c => if c ≠ connId then acc.deliver c (b :: payload) else acc) s := by
      unfold broadcastFrame
      rw [hr]
    rw [hb, foldl_deliver_broadcast (b :: payload) connId room.clients s hall]
    exact ⟨[], by simp, by simp⟩
  case pos =>
    subst hb0
    rw [if_pos rfl] at hok ⊢
    cases payload with
    | nil =>
      exfalso
      have hrs : read_sync_message s connId conn.roomId room [] =
          (s.raise PyErr.indexError, true) := rfl
      have h2 : (read_sync_message s connId conn.roomId room []).2 = true := by rw [hrs]
      have h1 : (read_sync_message s connId conn.roomId room []).1 =
          s.raise PyErr.indexError := by rw [hrs]
      rw [if_pos h2, h1] at hok
      exact append_singleton_ne s.errors PyErr.indexError hok
    | cons t rest =>
      by_cases ht0 : t = 0
      · subst ht0
        have hrs0 : read_sync_message s connId conn.roomId room (0 :: rest) =
            (match (get_message_loop rest).2 with
              | some e => (((get_message_loop rest).1.foldl
                  (fun acc f => acc.deliver connId (syncStep2Frame room.ydoc f)) s).raise e,
                  true)
              | none => ((get_message_loop rest).1.foldl
                  (fun acc f => acc.deliver connId (syncStep2Frame room.ydoc f)) s,
                  false)) := rfl
        cases herr : (get_message_loop rest).2 with
        | some e =>
          exfalso
          rw [herr] at hrs0
          have h2 : (read_sync_message s connId conn.roomId room (0 :: rest)).2 = true := by
            rw [hrs0]
          have h1 : (read_sync_message s connId conn.roomId room (0 :: rest)).1 =
              ((get_message_loop rest).1.foldl
                (fun acc f => acc.deliver connId (syncStep2Frame room.ydoc f)) s).raise e := by
            rw [hrs0]
          rw [if_pos h2, h1] at hok
          rw [foldl_deliver_self connId (syncStep2Frame room.ydoc)
            (get_message_loop rest).1 s ⟨conn, hc, ho⟩] at hok
          exact append_singleton_ne s.errors e hok
        | none =>
          rw [herr] at hrs0
          have h2 : (read_sync_message s connId conn.roomId room (0 :: rest)).2 = false := by
            rw [hrs0]
          have h1 : (read_sync_message s connId conn.roomId room (0 :: rest)).1 =
              (get_message_loop rest).1.foldl
                (fun acc f => acc.deliver connId (syncStep2Frame room.ydoc f)) s := by
            rw [hrs0]
          have hne2 : ¬((read_sync_message s connId conn.roomId room (0 :: rest)).2 = true) := by
            rw [h2]
            exact Bool.false_ne_true
          rw [if_neg hne2]
          simp only [h1, foldl_deliver_self connId (syncStep2Frame room.ydoc)
            (get_message_loop rest).1 s ⟨conn, hc, ho⟩]
          have hms := maybe_save_fields
            { s with sent := s.sent ++
              (get_message_loop rest).1.map (fun f => (connId, syncStep2Frame room.ydoc f)) }
            connId now conn room hc hr
          have hnem : ¬((maybe_save_document
              { s with sent := s.sent ++
                (get_message_loop rest).1.map (fun f => (connId, syncStep2Frame room.ydoc f)) }
              connId now).2 = true) := by
            rw [hms.1]
            exact Bool.false_ne_true
          rw [if_neg hnem]
          refine ⟨(get_message_loop rest).1.map (fun f => (connId, syncStep2Frame room.ydoc f)),
            ?_, ?_⟩
          · have hrm : (maybe_save_document
                { s with sent := s.sent ++
                  (get_message_loop rest).1.map (fun f => (connId, syncStep2Frame room.ydoc f)) }
                connId now).1.effRoom conn.roomId = some room := by
              unfold ServerState.effRoom
              rw [hms.2.1]
              exact hr
            have hbc : broadcastFrame (maybe_save_document
                { s with sent := s.sent ++
                  (get_message_loop rest).1.map (fun f => (connId, syncStep2Frame room.ydoc f)) }
                connId now).1 connId conn.roomId (0 :: 0 :: rest) =
                room.clients.foldl (fun acc c =>
                  if c ≠ connId then acc.deliver c (0 :: 0 :: rest) else acc)
                (maybe_save_document
                  { s with sent := s.sent ++
                    (get_message_loop rest).1.map (fun f => (connId, syncStep2Frame room.ydoc f)) }
                  connId now).1 := by
              unfold broadcastFrame
              rw [hrm]
            rw [hbc]
            rw [foldl_deliver_broadcast (0 :: 0 :: rest) connId room.clients _
              (fun c hcm => connOpen_of_skel hms.2.2.2.2 c (hall c hcm))]
            rw [hms.2.2.1]
          · intro p hp
            obtain ⟨f, _, hpf⟩ := List.mem_map.mp hp
            constructor
            · rw [← hpf]
            · rw [← hpf]
              exact syncStep2Frame_ne room.ydoc f (0 :: rest)
      · by_cases ht12 : t = 1 ∨ t = 2
        · have hrs0 : read_sync_message s connId conn.roomId room (t :: rest) =
              (match (get_message_loop rest).2 with
                | some e => ((s.setRoomEntry conn.roomId
                    (some { room with
                      ydoc := (get_message_loop rest).1.foldl YDoc.applyUpdate room.ydoc })).raise e,
                    true)
                | none => (s.setRoomEntry conn.roomId
                    (some { room with
                      ydoc := (get_message_loop rest).1.foldl YDoc.applyUpdate room.ydoc }),
                    false)) := by
            unfold read_sync_message
            simp only []
            rw [if_neg ht0, if_pos ht12]
          cases herr : (get_message_loop rest).2 with
          | some e =>
            exfalso
            rw [herr] at hrs0
            have h2 : (read_sync_message s connId conn.roomId room (t :: rest)).2 = true := by
              rw [hrs0]
            have h1 : (read_sync_message s connId conn.roomId room (t :: rest)).1 =
                (s.setRoomEntry conn.roomId
                  (some { room with
                    ydoc := (get_message_loop rest).1.foldl YDoc.applyUpdate room.ydoc })).raise e := by
              rw [hrs0]
            rw [if_pos h2, h1] at hok
            exact append_singleton_ne s.errors e hok
          | none =>
            rw [herr] at hrs0
            have h2 : (read_sync_message s connId conn.roomId room (t :: rest)).2 = false := by
              rw [hrs0]
            have h1 : (read_sync_message s connId conn.roomId room (t :: rest)).1 =
                s.setRoomEntry conn.roomId
                  (some { room with
                    ydoc := (get_message_loop rest).1.foldl YDoc.applyUpdate room.ydoc }) := by
              rw [hrs0]
            have hne2 : ¬((read_sync_message s connId conn.roomId room (t :: rest)).2 = true) := by
              rw [h2]
              exact Bool.false_ne_true
            rw [if_neg hne2]
            simp only [h1]
            have hms := maybe_save_fields
              (s.setRoomEntry conn.roomId
                (some { room with
                  ydoc := (get_message_loop rest).1.foldl YDoc.applyUpdate room.ydoc }))
              connId now conn
              { room with ydoc := (get_message_loop rest).1.foldl YDoc.applyUpdate room.ydoc }
              hc (effRoom_setRoomEntry_self s conn.roomId _)
            have hnem : ¬((maybe_save_document
                (s.setRoomEntry conn.roomId
                  (some { room with
                    ydoc := (get_message_loop rest).1.foldl YDoc.applyUpdate room.ydoc }))
                connId now).2 = true) := by
              rw [hms.1]
              exact Bool.false_ne_true
            rw [if_neg hnem]
            refine ⟨[], ?_, by simp⟩
            have hrm : (maybe_save_document
                (s.setRoomEntry conn.roomId
                  (some { room with
                    ydoc := (get_message_loop rest).1.foldl YDoc.applyUpdate room.ydoc }))
                connId now).1.effRoom conn.roomId =
                some { room with
                  ydoc := (get_message_loop rest).1.foldl YDoc.applyUpdate room.ydoc } := by
              unfold ServerState.effRoom
              rw [hms.2.1]
              rw [setRoomEntry_rooms_self]
              rfl
            have hbc : broadcastFrame (maybe_save_document
                (s.setRoomEntry conn.roomId
                  (some { room with
                    ydoc := (get_message_loop rest).1.foldl YDoc.applyUpdate room.ydoc }))
                connId now).1 connId conn.roomId (0 :: t :: rest) =
                ({ room with
                  ydoc := (get_message_loop rest).1.foldl YDoc.applyUpdate room.ydoc } : YjsRoom).clients.foldl
                  (fun acc c => if c ≠ connId then acc.deliver c (0 :: t :: rest) else acc)
                (maybe_save_document
                  (s.setRoomEntry conn.roomId
                    (some { room with
                      ydoc := (get_message_loop rest).1.foldl YDoc.applyUpdate room.ydoc }))
                  connId now).1 := by
              unfold broadcastFrame
              rw [hrm]
            have hcl : ({ room with
                ydoc := (get_message_loop rest).1.foldl YDoc.applyUpdate room.ydoc } : YjsRoom).clients =
                room.clients := rfl
            rw [hbc, hcl]
            rw [foldl_deliver_broadcast (0 :: t :: rest) connId room.clients _
              (fun c hcm => connOpen_of_skel hms.2.2.2.2 c
                (connOpen_of_skel (connSkel_setRoomEntry s conn.roomId _) c (hall c hcm)))]
            rw [hms.2.2.1]
            rw [show (s.setRoomEntry conn.roomId
              (some { room with
                ydoc := (get_message_loop rest).1.foldl YDoc.applyUpdate room.ydoc })).sent =
              s.sent from rfl]
            simp
        · exfalso
          have hrs : read_sync_message s connId conn.roomId room (t :: rest) =
              (s.raise (PyErr.runtimeError "Unknown message type"), true) := by
            unfold read_sync_message
            simp only []
            rw [if_neg ht0, if_neg ht12]
          have h2 : (read_sync_message s connId conn.roomId room (t :: rest)).2 = true := by
            rw [hrs]
          have h1 : (read_sync_message s connId conn.roomId room (t :: rest)).1 =
              s.raise (PyErr.runtimeError "Unknown message type") := by
            rw [hrs]
          rw [if_pos h2, h1] at hok
          exact append_singleton_ne s.errors _ hok

/-- Witness for C9: an Update frame from connection 1 in a three-client room
is delivered to connections 2 and 3 only, with no reply echoed to the
sender. -/
theorem C9_broadcast_exclusion_witness :
    ∃ replies : List (Nat × Bytes),
      (ws_on_message
          ⟨fun k => if k = [97] then
              some (some ⟨[102, 105, 108, 101], [1, 2, 3], [], YDoc.init⟩) else none,
            fun c => if c = 1 then some ⟨[97], true, none⟩
              else if c = 2 then some ⟨[97], true, none⟩
              else if c = 3 then some ⟨[97], true, none⟩ else none,
            [1, 2, 3], [], [], []⟩ 1 0 [0, 2, 1, 42]).sent =
        [] ++ replies ++ [(2, [0, 2, 1, 42]), (3, [0, 2, 1, 42])] ∧
      ∀ p ∈ replies, p.1 = 1 ∧ p.2 ≠ [0, 2, 1, 42] :=
  C9_broadcast_exclusion
    ⟨fun k => if k = [97] then
        some (some ⟨[102, 105, 108, 101], [1, 2, 3], [], YDoc.init⟩) else none,
      fun c => if c = 1 then some ⟨[97], true, none⟩
        else if c = 2 then some ⟨[97], true, none⟩
        else if c = 3 then some ⟨[97], true, none⟩ else none,
      [1, 2, 3], [], [], []⟩ 1 0 0 [2, 1, 42] ⟨[97], true, none⟩
    ⟨[102, 105, 108, 101], [1, 2, 3], [], YDoc.init⟩ rfl rfl
    (by decide) (by decide) (by decide) rfl
    (by
      intro c hcm
      have hc123 : c = 1 ∨ c = 2 ∨ c = 3 := by simpa using hcm
      rcases hc123 with h | h | h
      · subst h; exact ⟨⟨[97], true, none⟩, rfl, rfl⟩
      · subst h; exact ⟨⟨[97], true, none⟩, rfl, rfl⟩
      · subst h; exact ⟨⟨[97], true, none⟩, rfl, rfl⟩)
    (by decide)

/-! ## Claim C8 — the registry invariant, amended -/

theorem effRoom_eq_some {s : ServerState} {k : Bytes} {r : YjsRoom} :
    s.effRoom k = some r ↔ s.rooms k = some (some r) := by
  unfold ServerState.effRoom
  cases hv : s.rooms k with
  | none => simp
  | some v => cases v <;> simp

theorem setRoomEntry_rooms_other (s : ServerState) (k : Bytes) (v : Option YjsRoom)
    (q : Bytes) (hq : q ≠ k) : (s.setRoomEntry k v).rooms q = s.rooms q := by
  unfold ServerState.setRoomEntry
  simp [hq]

theorem delRoomEntry_rooms_self (s : ServerState) (k : Bytes) :
    (s.delRoomEntry k).rooms k = none := by
  unfold ServerState.delRoomEntry
  simp

theorem delRoomEntry_rooms_other (s : ServerState) (k q : Bytes) (hq : q ≠ k) :
    (s.delRoomEntry k).rooms q = s.rooms q := by
  unfold ServerState.delRoomEntry
  simp [hq]

/-- The registry invariant depends only on the rooms table and on the
room-key/open projection of the handler table. -/
theorem Inv_congr (s₁ s₂ : ServerState) (hr : s₂.rooms = s₁.rooms)
    (hc : connSkel s₂ = connSkel s₁) (h : Inv s₁) : Inv s₂ := by
  obtain ⟨h1, h2⟩ := h
  constructor
  · intro k v hv
    rw [hr] at hv
    obtain ⟨r, hvr, hne, hnd, hcl⟩ := h1 k v hv
    refine ⟨r, hvr, hne, hnd, ?_⟩
    intro c hcm
    obtain ⟨conn, hcc, hopen, hrid⟩ := hcl c hcm
    have hsk := congrFun hc c
    unfold connSkel at hsk
    rw [hcc] at hsk
    cases hx : s₂.conns c with
    | none => rw [hx] at hsk; simp at hsk
    | some conn₂ =>
      rw [hx] at hsk
      simp at hsk
      exact ⟨conn₂, rfl, by rw [hsk.2, hopen], by rw [hsk.1, hrid]⟩
  · intro c conn hcc hopen
    have hsk := congrFun hc c
    unfold connSkel at hsk
    rw [hcc] at hsk
    cases hx : s₁.conns c with
    | none => rw [hx] at hsk; simp at hsk
    | some conn₁ =>
      rw [hx] at hsk
      simp at hsk
      obtain ⟨r, hrr, hcm⟩ := h2 c conn₁ hx (by rw [← hsk.2]; exact hopen)
      refine ⟨r, ?_, hcm⟩
      rw [hr, hsk.1]
      exact hrr

theorem Inv_raise (s : ServerState) (e : PyErr) (h : Inv s) : Inv (s.raise e) :=
  Inv_congr s (s.raise e) rfl rfl h

theorem Inv_deliver (s : ServerState) (c : Nat) (m : Bytes) (h : Inv s) :
    Inv (s.deliver c m) :=
  Inv_congr s (s.deliver c m) (deliver_rooms s c m) (connSkel_deliver s c m) h

theorem Inv_fireDue (s : ServerState) (b : Option Nat) (h : Inv s) :
    Inv (fireDue s b) :=
  Inv_congr s (fireDue s b) (fireDue_rooms s b) (connSkel_fireDue s b) h

/-- `maybe_save_document` never touches the registry or the room-key/open
projection — only the sender's save-task slot and the logs. -/
theorem maybe_save_skel (s : ServerState) (c now : Nat) :
    (maybe_save_document s c now).1.rooms = s.rooms ∧
    connSkel (maybe_save_document s c now).1 = connSkel s := by
  unfold maybe_save_document
  split
  · exact ⟨rfl, rfl⟩
  · rename_i conn hcc
    split
    · exact ⟨rfl, rfl⟩
    · rename_i room hre
      split
      · exact ⟨rfl, rfl⟩
      · split
        · exact ⟨rfl, connSkel_setConn_same s c conn _ hcc rfl rfl⟩
        · exact ⟨rfl, connSkel_setConn_same s c conn _ hcc rfl rfl⟩

theorem foldl_deliver_self_skel (cid : Nat) (g : Bytes → Bytes) :
    ∀ (l : List Bytes) (s : ServerState),
      (l.foldl (fun acc f => acc.deliver cid (g f)) s).rooms = s.rooms ∧
      connSkel (l.foldl (fun acc f => acc.deliver cid (g f)) s) = connSkel s := by
  intro l
  induction l with
  | nil => intro s; exact ⟨rfl, rfl⟩
  | cons f fs ih =>
    intro s
    simp only [List.foldl_cons]
    obtain ⟨ihr, ihc⟩ := ih (s.deliver cid (g f))
    exact ⟨by rw [ihr, deliver_rooms], by rw [ihc, connSkel_deliver]⟩

theorem foldl_deliver_bcast_skel (cid : Nat) (m : Bytes) :
    ∀ (l : List Nat) (s : ServerState),
      (l.foldl (fun acc c => if c ≠ cid then acc.deliver c m else acc) s).rooms = s.rooms ∧
      connSkel (l.foldl (fun acc c => if c ≠ cid then acc.deliver c m else acc) s) =
        connSkel s := by
  intro l
  induction l with
  | nil => intro s; exact ⟨rfl, rfl⟩
  | cons c cs ih =>
    intro s
    simp only [List.foldl_cons]
    by_cases hc : c ≠ cid
    · rw [if_pos hc]
      obtain ⟨ihr, ihc⟩ := ih (s.deliver c m)
      exact ⟨by rw [ihr, deliver_rooms], by rw [ihc, connSkel_deliver]⟩
    · rw [if_neg hc]
      exact ih s

theorem broadcast_skel (s : ServerState) (cid : Nat) (k m : Bytes) :
    (broadcastFrame s cid k m).rooms = s.rooms ∧
    connSkel (broadcastFrame s cid k m) = connSkel s := by
  unfold broadcastFrame
  split
  · exact ⟨rfl, rfl⟩
  · rename_i room hre
    exact foldl_deliver_bcast_skel cid m room.clients s

theorem Inv_broadcast (s : ServerState) (cid : Nat) (k m : Bytes) (h : Inv s) :
    Inv (broadcastFrame s cid k m) :=
  Inv_congr s _ (broadcast_skel s cid k m).1 (broadcast_skel s cid k m).2 h

/-- Replacing a registered room by one with the same client list preserves
the invariant. -/
theorem Inv_setRoom_same_clients (s : ServerState) (k : Bytes) (room room' : YjsRoom)
    (hrm : s.rooms k = some (some room)) (hcl : room'.clients = room.clients)
    (h : Inv s) : Inv (s.setRoomEntry k (some room')) := by
  obtain ⟨h1, h2⟩ := h
  constructor
  · intro k' v hv
    by_cases hk : k' = k
    · subst hk
      rw [setRoomEntry_rooms_self] at hv
      have hv2 : v = some room' := (Option.some.inj hv).symm
      subst hv2
      obtain ⟨r0, hr0, hne, hnd, hmem⟩ := h1 k' (some room) hrm
      have hr0' : r0 = room := (Option.some.inj hr0).symm
      subst hr0'
      refine ⟨room', rfl, by rw [hcl]; exact hne, by rw [hcl]; exact hnd, ?_⟩
      intro c hcm
      rw [hcl] at hcm
      exact hmem c hcm
    · rw [setRoomEntry_rooms_other s k (some room') k' hk] at hv
      obtain ⟨r0, hr0, hne, hnd, hmem⟩ := h1 k' v hv
      exact ⟨r0, hr0, hne, hnd, hmem⟩
  · intro c conn hcc hopen
    obtain ⟨r, hrr, hcm⟩ := h2 c conn hcc hopen
    by_cases hk : conn.roomId = k
    · rw [hk] at hrr
      have hr2 : r = room := by
        have := hrr.symm.trans hrm
        exact (Option.some.inj (Option.some.inj this))
      subst hr2
      refine ⟨room', ?_, by rw [hcl]; exact hcm⟩
      rw [hk, setRoomEntry_rooms_self]
    · refine ⟨r, ?_, hcm⟩
      rw [setRoomEntry_rooms_other s k (some room') conn.roomId hk]
      exact hrr

/-- `read_sync_message` preserves the registry invariant: it only sends
frames, applies updates to the registered room's document (same client
list), or raises. -/
theorem Inv_read_sync (s : ServerState) (connId : Nat) (roomKey : Bytes)
    (room : YjsRoom) (message : Bytes) (hrm : s.rooms roomKey = some (some room))
    (h : Inv s) : Inv (read_sync_message s connId roomKey room message).1 := by
  unfold read_sync_message
  split
  · exact Inv_raise s PyErr.indexError h
  · rename_i t rest
    split
    · have hfold := foldl_deliver_self_skel connId (syncStep2Frame room.ydoc)
        (get_message_loop rest).1 s
      have hInv2 : Inv ((get_message_loop rest).1.foldl
          (fun acc f => acc.deliver connId (syncStep2Frame room.ydoc f)) s) :=
        Inv_congr s _ hfold.1 hfold.2 h
      dsimp only
      split
      · exact Inv_raise _ _ hInv2
      · exact hInv2
    · split
      · have hInv2 : Inv (s.setRoomEntry roomKey
            (some { room with
              ydoc := (get_message_loop rest).1.foldl YDoc.applyUpdate room.ydoc })) :=
          Inv_setRoom_same_clients s roomKey room _ hrm rfl h
        dsimp only
        split
        · exact Inv_raise _ _ hInv2
        · exact hInv2
      · exact Inv_raise s _ h

/-- Registering a fresh connection in a room whose client list satisfies the
invariant conditions preserves the invariant. -/
theorem Inv_open_shape (s : ServerState) (c : Nat) (key : Bytes) (room2 : YjsRoom)
    (hfresh : s.conns c = none)
    (hne : room2.clients ≠ []) (hnd : room2.clients.Nodup)
    (hmem2 : ∀ x, x ∈ room2.clients → x = c ∨
      ∃ conn, s.conns x = some conn ∧ conn.isOpen = true ∧ conn.roomId = key)
    (hself : c ∈ room2.clients)
    (hsub : ∀ x conn, s.conns x = some conn → conn.isOpen = true →
      conn.roomId = key → x ∈ room2.clients)
    (h : Inv s) :
    Inv ((s.setConn c ⟨key, true, none⟩).setRoomEntry key (some room2)) := by
  obtain ⟨h1, h2⟩ := h
  have hcn : ∀ q, ((s.setConn c ⟨key, true, none⟩).setRoomEntry key (some room2)).conns q
      = if q = c then some (⟨key, true, none⟩ : Conn) else s.conns q := fun _ => rfl
  have hrm : ∀ q, q ≠ key →
      ((s.setConn c ⟨key, true, none⟩).setRoomEntry key (some room2)).rooms q =
        s.rooms q := by
    intro q hq
    rw [setRoomEntry_rooms_other _ key (some room2) q hq]
    rfl
  constructor
  · intro k v hv
    by_cases hk : k = key
    · subst hk
      rw [setRoomEntry_rooms_self] at hv
      cases Option.some.inj hv
      refine ⟨room2, rfl, hne, hnd, ?_⟩
      intro x hx
      rcases hmem2 x hx with rfl | ⟨conn, hcc, ho, hrid⟩
      · exact ⟨⟨k, true, none⟩, by rw [hcn x, if_pos rfl], rfl, rfl⟩
      · have hxc : x ≠ c := by
          intro he
          rw [he, hfresh] at hcc
          exact Option.noConfusion hcc
        exact ⟨conn, by rw [hcn x, if_neg hxc]; exact hcc, ho, hrid⟩
    · rw [hrm k hk] at hv
      obtain ⟨r, hvr, hne0, hnd0, hmem0⟩ := h1 k v hv
      refine ⟨r, hvr, hne0, hnd0, ?_⟩
      intro x hx
      obtain ⟨conn, hcc, ho, hrid⟩ := hmem0 x hx
      have hxc : x ≠ c := by
        intro he
        rw [he, hfresh] at hcc
        exact Option.noConfusion hcc
      exact ⟨conn, by rw [hcn x, if_neg hxc]; exact hcc, ho, hrid⟩
  · intro x conn2 hcc2 ho2
    have hcx : (if x = c then some (⟨key, true, none⟩ : Conn) else s.conns x)
        = some conn2 := hcc2
    by_cases hxc : x = c
    · rw [if_pos hxc] at hcx
      cases Option.some.inj hcx
      exact ⟨room2, setRoomEntry_rooms_self _ key (some room2), by rw [hxc]; exact hself⟩
    · rw [if_neg hxc] at hcx
      by_cases hrk : conn2.roomId = key
      · refine ⟨room2, ?_, hsub x conn2 hcx ho2 hrk⟩
        rw [hrk]
        exact setRoomEntry_rooms_self _ key (some room2)
      · obtain ⟨r, hrr, hx⟩ := h2 x conn2 hcx ho2
        exact ⟨r, by rw [hrm conn2.roomId hrk]; exact hrr, hx⟩

/-- `open` preserves the registry invariant when the connection id is fresh
(line 96: ids come from `uuid4`). -/
theorem Inv_ws_open (s : ServerState) (c : Nat) (tp : Bytes)
    (hfresh : s.conns c = none) (h : Inv s) : Inv (ws_open s c tp) := by
  unfold ws_open
  split
  · exact Inv_raise s PyErr.valueError h
  · rename_i pr hsp
    dsimp only
    refine Inv_deliver _ c _ ?_
    have hnotc : c ∉ ((s.effRoom pr.2).getD (YjsRoom.new pr.1)).clients := by
      cases heff : s.effRoom pr.2 with
      | none => simp [YjsRoom.new]
      | some r =>
        simp only [Option.getD_some]
        intro hcm
        obtain ⟨r0, hr0, _, _, hmem0⟩ := h.1 pr.2 (some r) (effRoom_eq_some.mp heff)
        cases Option.some.inj hr0
        obtain ⟨conn, hcc, _, _⟩ := hmem0 c hcm
        rw [hfresh] at hcc
        exact Option.noConfusion hcc
    have hmem0 : ∀ x, x ∈ ((s.effRoom pr.2).getD (YjsRoom.new pr.1)).clients →
        ∃ conn, s.conns x = some conn ∧ conn.isOpen = true ∧ conn.roomId = pr.2 := by
      cases heff : s.effRoom pr.2 with
      | none => intro x hx; simp [YjsRoom.new] at hx
      | some r =>
        simp only [Option.getD_some]
        intro x hx
        obtain ⟨r0, hr0, _, _, hm⟩ := h.1 pr.2 (some r) (effRoom_eq_some.mp heff)
        cases Option.some.inj hr0
        exact hm x hx
    have hnd0 : ((s.effRoom pr.2).getD (YjsRoom.new pr.1)).clients.Nodup := by
      cases heff : s.effRoom pr.2 with
      | none => simp [YjsRoom.new]
      | some r =>
        simp only [Option.getD_some]
        obtain ⟨r0, hr0, _, hnd, _⟩ := h.1 pr.2 (some r) (effRoom_eq_some.mp heff)
        cases Option.some.inj hr0
        exact hnd
    have hgoal : ({ (s.effRoom pr.2).getD (YjsRoom.new pr.1) with clients :=
        if c ∈ ((s.effRoom pr.2).getD (YjsRoom.new pr.1)).clients
        then ((s.effRoom pr.2).getD (YjsRoom.new pr.1)).clients
        else ((s.effRoom pr.2).getD (YjsRoom.new pr.1)).clients ++ [c] } : YjsRoom) =
        { (s.effRoom pr.2).getD (YjsRoom.new pr.1) with clients :=
          ((s.effRoom pr.2).getD (YjsRoom.new pr.1)).clients ++ [c] } := by
      rw [if_neg hnotc]
    rw [hgoal]
    refine Inv_open_shape s c pr.2 _ hfresh ?_ ?_ ?_ ?_ ?_ h
    · dsimp only
      simp
    · dsimp only
      rw [List.nodup_append]
      refine ⟨hnd0, List.nodup_singleton c, ?_⟩
      intro a ha hb
      rw [List.mem_singleton] at hb
      rw [← hb] at hnotc
      exact hnotc ha
    · intro x hx
      dsimp only at hx
      rcases List.mem_append.mp hx with hx0 | hx1
      · exact Or.inr (hmem0 x hx0)
      · exact Or.inl (List.mem_singleton.mp hx1)
    · dsimp only
      simp
    · intro x conn hcx hox hrx
      dsimp only
      obtain ⟨r', hrr', hx'⟩ := h.2 x conn hcx hox
      rw [hrx] at hrr'
      have heff' : s.effRoom pr.2 = some r' := effRoom_eq_some.mpr hrr'
      have hbase : (s.effRoom pr.2).getD (YjsRoom.new pr.1) = r' := by
        rw [heff']
        rfl
      refine List.mem_append_left [c] ?_
      rw [hbase]
      exact hx'

/-- `on_close` preserves the registry invariant. -/
theorem Inv_ws_close (s : ServerState) (c : Nat) (h : Inv s) : Inv (ws_close s c) := by
  unfold ws_close
  split
  · exact h
  · rename_i conn hcc
    split
    · rename_i hop
      dsimp only
      obtain ⟨hr, hcm⟩ := h.2 c conn hcc hop
      obtain ⟨room1, hrr, hcm⟩ := h.2 c conn hcc hop
      split
      · rename_i heff
        exfalso
        have heff' : s.effRoom conn.roomId = none := heff
        have heff2 : s.effRoom conn.roomId = some room1 := effRoom_eq_some.mpr hrr
        rw [heff'] at heff2
        exact Option.noConfusion heff2
      · rename_i room heffr
        have hre : s.rooms conn.roomId = some (some room) := effRoom_eq_some.mp heffr
        have hroomr : room1 = room := by
          have hq := hrr.symm.trans hre
          exact Option.some.inj (Option.some.inj hq)
        rw [hroomr] at hcm
        obtain ⟨r0, hr0, hne0, hnd0, hmem0⟩ := h.1 conn.roomId (some room) hre
        cases Option.some.inj hr0
        split
        · rename_i hcmem
          split
          · rename_i hE
            have herase : room.clients.erase c = [] := by
              cases hx : room.clients.erase c with
              | nil => rfl
              | cons a as =>
                rw [hx] at hE
                exact Bool.noConfusion hE
            have hlen := List.length_erase_of_mem hcmem
            rw [herase] at hlen
            have hp : 0 < room.clients.length :=
              List.length_pos.mpr (List.ne_nil_of_mem hcmem)
            have h1len : room.clients.length = 1 := by
              simp only [List.length_nil] at hlen
              omega
            obtain ⟨a, ha⟩ := List.length_eq_one.mp h1len
            have hac : a = c := by
              rw [ha] at hcmem
              exact (List.mem_singleton.mp hcmem).symm
            have hclc : room.clients = [c] := by rw [ha, hac]
            constructor
            · intro k v hv
              by_cases hk : k = conn.roomId
              · subst hk
                rw [delRoomEntry_rooms_self] at hv
                exact Option.noConfusion hv
              · rw [delRoomEntry_rooms_other _ _ k hk] at hv
                obtain ⟨r1, hvr, hne1, hnd1, hmem1⟩ := h.1 k v hv
                refine ⟨r1, hvr, hne1, hnd1, ?_⟩
                intro x hx
                obtain ⟨cx, hcx, hox, hrx⟩ := hmem1 x hx
                have hxc : x ≠ c := by
                  intro he
                  rw [he, hcc] at hcx
                  cases Option.some.inj hcx
                  exact hk hrx.symm
                refine ⟨cx, ?_, hox, hrx⟩
                show (if x = c then some { conn with isOpen := false }
                  else s.conns x) = some cx
                rw [if_neg hxc]
                exact hcx
            · intro x cx hcx hox
              have hcx' : (if x = c then some { conn with isOpen := false }
                  else s.conns x) = some cx := hcx
              by_cases hxc : x = c
              · rw [if_pos hxc] at hcx'
                cases Option.some.inj hcx'
                exact Bool.noConfusion hox
              · rw [if_neg hxc] at hcx'
                obtain ⟨r1, hrr1, hx1⟩ := h.2 x cx hcx' hox
                by_cases hrk : cx.roomId = conn.roomId
                · exfalso
                  rw [hrk, hre] at hrr1
                  have hq : r1 = room :=
                    (Option.some.inj (Option.some.inj hrr1)).symm
                  rw [hq, hclc] at hx1
                  exact hxc (List.mem_singleton.mp hx1)
                · refine ⟨r1, ?_, hx1⟩
                  show (if cx.roomId = conn.roomId then none
                    else s.rooms cx.roomId) = some (some r1)
                  rw [if_neg hrk]
                  exact hrr1
          · rename_i hE
            have hner : room.clients.erase c ≠ [] := by
              intro he
              rw [he] at hE
              simp at hE
            have hnder : (room.clients.erase c).Nodup := hnd0.erase c
            constructor
            · intro k v hv
              by_cases hk : k = conn.roomId
              · subst hk
                rw [setRoomEntry_rooms_self] at hv
                cases Option.some.inj hv
                refine ⟨_, rfl, hner, hnder, ?_⟩
                intro x hx
                have hx' : x ∈ room.clients.erase c := hx
                have hxn := (hnd0.mem_erase_iff).mp hx'
                obtain ⟨cx, hcx, hox, hrx⟩ := hmem0 x hxn.2
                refine ⟨cx, ?_, hox, hrx⟩
                show (if x = c then some { conn with isOpen := false }
                  else s.conns x) = some cx
                rw [if_neg hxn.1]
                exact hcx
              · rw [setRoomEntry_rooms_other _ _ _ k hk] at hv
                obtain ⟨r1, hvr, hne1, hnd1, hmem1⟩ := h.1 k v hv
                refine ⟨r1, hvr, hne1, hnd1, ?_⟩
                intro x hx
                obtain ⟨cx, hcx, hox, hrx⟩ := hmem1 x hx
                have hxc : x ≠ c := by
                  intro he
                  rw [he, hcc] at hcx
                  cases Option.some.inj hcx
                  exact hk hrx.symm
                refine ⟨cx, ?_, hox, hrx⟩
                show (if x = c then some { conn with isOpen := false }
                  else s.conns x) = some cx
                rw [if_neg hxc]
                exact hcx
            · intro x cx hcx hox
              have hcx' : (if x = c then some { conn with isOpen := false }
                  else s.conns x) = some cx := hcx
              by_cases hxc : x = c
              · rw [if_pos hxc] at hcx'
                cases Option.some.inj hcx'
                exact Bool.noConfusion hox
              · rw [if_neg hxc] at hcx'
                obtain ⟨r1, hrr1, hx1⟩ := h.2 x cx hcx' hox
                by_cases hrk : cx.roomId = conn.roomId
                · have hq : r1 = room := by
                    rw [hrk, hre] at hrr1
                    exact (Option.some.inj (Option.some.inj hrr1)).symm
                  refine ⟨{ room with clients := room.clients.erase c }, ?_, ?_⟩
                  · rw [hrk]
                    exact setRoomEntry_rooms_self _ _ _
                  · exact (hnd0.mem_erase_iff).mpr ⟨hxc, by rw [← hq]; exact hx1⟩
                · refine ⟨r1, ?_, hx1⟩
                  rw [setRoomEntry_rooms_other _ _ _ _ hrk]
                  exact hrr1
        · rename_i hancm
          exact absurd hcm hancm
    · exact h

/-- `on_message` preserves the registry invariant for every non-rename
frame. -/
theorem Inv_ws_on_message (s : ServerState) (c now : Nat) (m : Bytes)
    (hm : m.head? ≠ some 125) (h : Inv s) : Inv (ws_on_message s c now m) := by
  unfold ws_on_message
  split
  · exact h
  · rename_i conn hcc
    split
    · exact h
    · split
      · exact Inv_raise s PyErr.indexError h
      · rename_i b payload
        split
        · split
          · exact Inv_raise _ PyErr.attributeError h
          · exact Inv_deliver _ c _ h
        · split
          · split
            · exact Inv_raise _ PyErr.attributeError h
            · rename_i room heff
              exact Inv_setRoom_same_clients s conn.roomId room _
                (effRoom_eq_some.mp heff) rfl h
          · split
            · rename_i h125
              exfalso
              apply hm
              rw [List.head?_cons, h125]
            · split
              · exact h
              · rename_i room heff
                split
                · dsimp only
                  have hrm := effRoom_eq_some.mp heff
                  have hrs : Inv (read_sync_message s c conn.roomId room payload).1 :=
                    Inv_read_sync s c conn.roomId room payload hrm h
                  split
                  · exact hrs
                  · have hms := maybe_save_skel
                      (read_sync_message s c conn.roomId room payload).1 c now
                    have hmsInv : Inv (maybe_save_document
                        (read_sync_message s c conn.roomId room payload).1 c now).1 :=
                      Inv_congr _ _ hms.1 hms.2 hrs
                    split
                    · exact hmsInv
                    · exact Inv_broadcast _ c conn.roomId _ hmsInv
                · exact Inv_broadcast s c conn.roomId _ h

/-- One loop turn (due timers, then the handler) preserves the registry
invariant for covered events. -/
theorem Inv_stepEvent (s : ServerState) (ev : Nat × Event) (h : Inv s)
    (hok : okEvent s ev) : Inv (stepEvent s ev) := by
  obtain ⟨t, e⟩ := ev
  cases e with
  | evOpen c tp =>
    have hfresh : (fireDue s (some t)).conns c = none :=
      (conns_none_of_skel (connSkel_fireDue s (some t)) c).mpr hok
    exact Inv_ws_open _ c tp hfresh (Inv_fireDue s (some t) h)
  | evMsg c m =>
    exact Inv_ws_on_message _ c t m hok (Inv_fireDue s (some t) h)
  | evClose c =>
    exact Inv_ws_close _ c (Inv_fireDue s (some t) h)

/-- The strengthened invariant implies the claim's statement: every
registered room has a connected (open) client. -/
theorem registryClientInv_of_Inv (s : ServerState) (h : Inv s) :
    registryClientInv s := by
  intro k r hk
  obtain ⟨r0, hr0, hne, _, hmem⟩ := h.1 k (some r) hk
  cases Option.some.inj hr0
  obtain ⟨x, hx⟩ := List.exists_mem_of_ne_nil _ hne
  obtain ⟨cx, hcx, hox, _⟩ := hmem x hx
  exact ⟨x, hx, cx, hcx, hox⟩

/-- Claim C8 (amended): provided no rename-session frame is processed and
connection ids are fresh, the registry invariant — every registered entry is
an actual room with at least one connected open client — is preserved by
every loop turn; opening `file:/tmp/a.txt` on a fresh server registers
exactly one room, keyed `/tmp/a.txt` with the opener as sole client, and
closing that connection synchronously removes the room from the registry. -/
theorem C8_registry_invariant :
    (∀ (s : ServerState) (ev : Nat × Event), Inv s → okEvent s ev →
      Inv (stepEvent s ev)) ∧
    (∀ s : ServerState, Inv s → registryClientInv s) ∧
    (runEvents initState [(0, Event.evOpen 1
        [102, 105, 108, 101, 58, 47, 116, 109, 112, 47, 97, 46, 116, 120, 116])]).rooms
        [47, 116, 109, 112, 47, 97, 46, 116, 120, 116] =
      some (some ⟨[102, 105, 108, 101], [1], [], YDoc.init⟩) ∧
    (∀ k, k ≠ [47, 116, 109, 112, 47, 97, 46, 116, 120, 116] →
      (runEvents initState [(0, Event.evOpen 1
        [102, 105, 108, 101, 58, 47, 116, 109, 112, 47, 97, 46, 116, 120, 116])]).rooms
        k = none) ∧
    (runEvents initState [(0, Event.evOpen 1
        [102, 105, 108, 101, 58, 47, 116, 109, 112, 47, 97, 46, 116, 120, 116]),
      (1, Event.evClose 1)]).rooms
      [47, 116, 109, 112, 47, 97, 46, 116, 120, 116] = none := by
  refine ⟨fun s ev h hok => Inv_stepEvent s ev h hok,
    fun s h => registryClientInv_of_Inv s h, by decide, ?_, by decide⟩
  intro k hk
  show (if k = [47, 116, 109, 112, 47, 97, 46, 116, 120, 116]
      then some (some (⟨[102, 105, 108, 101], [1], [], YDoc.init⟩ : YjsRoom))
      else none) = none
  rw [if_neg hk]

/-- Witness: the preservation clause of C8 applied at the initial state to a
fresh open of `file:/tmp/a.txt`; the invariant of the initial (empty)
registry is discharged by an explicit term. -/
theorem C8_registry_invariant_witness :
    Inv (stepEvent initState (0, Event.evOpen 1
      [102, 105, 108, 101, 58, 47, 116, 109, 112, 47, 97, 46, 116, 120, 116])) :=
  C8_registry_invariant.1 initState
    (0, Event.evOpen 1
      [102, 105, 108, 101, 58, 47, 116, 109, 112, 47, 97, 46, 116, 120, 116])
    ⟨fun _ _ hv => Option.noConfusion hv, fun _ _ hcc _ => Option.noConfusion hcc⟩
    rfl

end YjsEchoWs
